import Mathlib

/-!
# carry: a fluent HTTP request builder (ZEISS/carry)

A shallow embedding of `client.go` and `body.go`, and the properties of the
builder proved over it.

Layout of the development:

* the Go runtime pieces the builder relies on: string slices over shared
  backing arrays, and maps as association lists;
* the values of the imported packages (`net/url`, `net/http`, `net/textproto`,
  `go-querystring`, `encoding/json`, `utilx`); the functions of those packages
  that the builder calls are collected in the record `Lib`, so every general
  theorem holds for whatever those functions compute, and `golib` is the
  instance transcribed from the Go standard library (as of Go 1.22) that the
  runs on concrete builders use;
* the builder `Client` and its operations, one definition per Go function;
* reference resolution as RFC 3986, section 5.2, words it (`rfc3986`), with
  which the URL string after `Path` is compared;
* the theorems.
-/

namespace carry

deriving instance DecidableEq for Except

/-! ## Go runtime: slices of strings over shared backing arrays -/

/-- A Go slice header for a `[]string`: the backing array it points into
(by allocation number), its length and its capacity. The nil slice has
length and capacity 0. -/
structure Slice where
  arr : Nat
  len : Nat
  cap : Nat
  deriving DecidableEq, Repr

/-- The backing arrays allocated so far; array `i` is the `i`-th entry. -/
abbrev Arrays := List (List String)

/-- The nil `[]string`. -/
def Slice.null : Slice := ⟨0, 0, 0⟩

/-- The elements a slice denotes: the first `len` cells of its array. -/
def Slice.read (m : Arrays) (s : Slice) : List String :=
  (m.getD s.arr []).take s.len

/-- The Go composite literal `[]string{value}`: a fresh array of one cell. -/
def Slice.literal (m : Arrays) (value : String) : Arrays × Slice :=
  (m ++ [[value]], ⟨m.length, 1, 1⟩)

/-- The Go builtin `append(s, v)` on a `[]string`. When the capacity suffices
the value is written in place into the backing array, which every slice over
that array shares; otherwise a new array is allocated, of the capacity
`grow newLen oldCap` the runtime picks, and the old elements are copied. -/
def Slice.append (grow : Nat → Nat → Nat) (m : Arrays) (s : Slice) (v : String) :
    Arrays × Slice :=
  if s.len < s.cap then
    (m.set s.arr ((m.getD s.arr []).set s.len v), { s with len := s.len + 1 })
  else
    let c := grow (s.len + 1) s.cap
    (m ++ [s.read m ++ v :: List.replicate (c - (s.len + 1)) ""],
      ⟨m.length, s.len + 1, c⟩)

/-- The loop of `runtime.nextslicecap` for a large slice: the capacity grows
by a quarter (and 192) until it holds `newLen`; every round adds at least
192, so `fuel` rounds suffice when `fuel` is `newLen`. -/
def nextslicecapLoop (newLen : Nat) : Nat → Nat → Nat
  | 0, newcap => newcap
  | fuel + 1, newcap =>
    let newcap := newcap + (newcap + 3 * 256) / 4
    if newcap ≥ newLen then newcap else nextslicecapLoop newLen fuel newcap

/-- Go `runtime.nextslicecap` (Go 1.22): the capacity asked for when a slice
of capacity `oldCap` has to hold `newLen` elements. -/
def nextslicecap (newLen oldCap : Nat) : Nat :=
  let doublecap := oldCap + oldCap
  if newLen > doublecap then newLen
  else if oldCap < 256 then doublecap
  else nextslicecapLoop newLen newLen oldCap

/-- Go `runtime.class_to_size`: the sizes, in bytes, of the allocator's size
classes. -/
def class_to_size : List Nat :=
  [0, 8, 16, 24, 32, 48, 64, 80, 96, 112, 128, 144, 160, 176, 192, 208, 224, 240, 256, 288, 320,
   352, 384, 416, 448, 480, 512, 576, 640, 704, 768, 896, 1024, 1152, 1280, 1408, 1536, 1792,
   2048, 2304, 2688, 3072, 3200, 3456, 4096, 4864, 5120, 5376, 6144, 6528, 6784, 6912, 8192,
   9472, 9728, 10240, 10880, 12288, 13568, 14336, 16384, 18432, 19072, 20480, 21760, 24576,
   27264, 28672, 32768]

/-- Go `runtime.roundupsize` (Go 1.22, 64-bit): the bytes the allocator hands
out for a request of `size` bytes. A small object with pointers above 512
bytes carries a malloc header of 8 bytes, which is taken off again; the
tables `size_to_class8` and `size_to_class128` give the smallest class that
holds the request; a large object is rounded up to whole pages of 8192
bytes. -/
def roundupsize (size : Nat) (noscan : Bool) : Nat :=
  if size ≤ 32768 - 8 then
    let reqSize := if !noscan && size > 512 then size + 8 else size
    (class_to_size.find? (fun c => decide (reqSize ≤ c))).getD reqSize - (reqSize - size)
  else (size + 8191) / 8192 * 8192

/-- The capacity of the slice Go `runtime.growslice` returns for a `[]string`
(elements of 16 bytes that hold a pointer): the capacity `nextslicecap` asks
for, rounded up to what the allocated bytes hold. -/
def growsliceCap (newLen oldCap : Nat) : Nat :=
  roundupsize (nextslicecap newLen oldCap * 16) false / 16

/-! ## Go maps with string keys -/

/-- A Go `map[string]β` as an association list. The first entry of a key is
its binding; the order of the entries carries no meaning, as a Go map has
none. -/
abbrev GoMap (β : Type) := List (String × β)

/-- The Go expression `m[key]` as an option (`v, ok := m[key]`). -/
def GoMap.find {β : Type} (m : GoMap β) (key : String) : Option β :=
  match m with
  | [] => none
  | (k, v) :: rest => if k = key then some v else GoMap.find rest key

/-- The Go statement `m[key] = v`. -/
def GoMap.assign {β : Type} (m : GoMap β) (key : String) (v : β) : GoMap β :=
  match m with
  | [] => [(key, v)]
  | (k, w) :: rest => if k = key then (k, v) :: rest else (k, w) :: GoMap.assign rest key v

/-- The keys of the map, each once. -/
def GoMap.keys {β : Type} (m : GoMap β) : List String :=
  (m.map Prod.fst).dedup

/-! ## Values of the imported packages -/

namespace url

/-- Go `url.Userinfo`. -/
structure Userinfo where
  username : String
  password : String
  passwordSet : Bool
  deriving DecidableEq, Repr

/-- Go `url.URL`. -/
structure URL where
  Scheme : String := ""
  Opaque : String := ""
  User : Option Userinfo := none
  Host : String := ""
  Path : String := ""
  RawPath : String := ""
  OmitHost : Bool := false
  ForceQuery : Bool := false
  RawQuery : String := ""
  Fragment : String := ""
  RawFragment : String := ""
  deriving DecidableEq, Repr

/-- Go `url.Values`, a `map[string][]string`. The value lists are held by
value: the maps built during materialization are fresh and never shared. -/
abbrev Values := GoMap (List String)

/-- Go `v[key]` on a `Values`; a missing key reads as the nil slice. -/
def Values.index (v : Values) (key : String) : List String :=
  (GoMap.find v key).getD []

/-- Go `Values.Add`: `v[key] = append(v[key], value)`. -/
def Values.Add (v : Values) (key value : String) : Values :=
  GoMap.assign v key (Values.index v key ++ [value])

end url

/-- A Go `io.Reader`: either an in-memory text or a stream handed in by the
caller. -/
inductive Reader (Any : Type) where
  | text (s : String)
  | stream (r : Any)
  deriving DecidableEq, Repr

namespace http

/-- Go `http.Header` of a builder: a map from key to a slice header. The
slices point into the shared `Arrays`. -/
abbrev Header := GoMap Slice

/-- Go `http.Request`, the fields the builder fills. Its header map is built
fresh for the request, so its value lists are held by value. -/
structure Request (Any : Type) where
  ctx : Any
  Method : String
  URL : url.URL
  Header : url.Values
  Body : Option (Reader Any)
  Host : String

/-- Go `http.Response`, the fields `Do` reads. -/
structure Response (Any : Type) where
  StatusCode : Int
  ContentLength : Int
  Body : Any

end http

/-- Go `Doer`: performs a request, returns a (possibly nil) response and a
(possibly nil) error. -/
abbrev Doer (Any : Type) := http.Request Any → Option (http.Response Any) × Option String

/-- Modelled from the spec: `ResponseDecoder` is declared in a file of the
repository that is not among the sources; by the spec its contract is
`decode(response, target) -> error`. -/
abbrev ResponseDecoder (Any : Type) := http.Response Any → Any → Option String

/-- Modelled from the spec: `SignerProvider` is declared in a file of the
repository that is not among the sources; by the spec its contract is
`sign(request) -> error`, it is invoked on the constructed request and is
allowed to add or overwrite headers, or to fail. It is given the request and
returns the header set it leaves on it. -/
abbrev SignerProvider (Any : Type) := http.Request Any → Except String url.Values

/-- Modelled from the spec: the default signer `noopSigner` (declared with
`SignerProvider`): a no-op that always succeeds. -/
def noopSigner {Any : Type} : SignerProvider Any := fun req => .ok req.Header

/-- The functions of the imported packages that the builder calls. -/
structure Lib (Any : Type) where
  /-- The function `textproto.CanonicalMIMEHeaderKey`. -/
  CanonicalMIMEHeaderKey : String → String
  /-- The capacity `append` gives a grown slice (`runtime.growslice`). -/
  grow : Nat → Nat → Nat
  /-- The function `url.Parse`. -/
  Parse : String → Except String url.URL
  /-- The method `(*URL).String`. -/
  URLString : url.URL → String
  /-- The method `(*URL).EscapedPath`. -/
  EscapedPath : url.URL → String
  /-- The method `(*URL).setPath`. -/
  setPath : url.URL → String → Except String url.URL
  /-- The function `resolvePath` of `net/url`. -/
  resolvePath : String → String → String
  /-- The function `url.ParseQuery`. -/
  ParseQuery : String → Except String url.Values
  /-- The function `url.QueryEscape`. -/
  QueryEscape : String → String
  /-- The function `query.Values` of `go-querystring`. -/
  goqueryValues : Any → Except String url.Values
  /-- The order in which a `range` over a `url.Values` visits its keys. -/
  rangeValues : url.Values → List String
  /-- The order in which a `range` over a header map visits its keys. -/
  rangeHeader : http.Header → List String
  /-- What `json.NewEncoder(buf).Encode(payload)` writes. -/
  jsonEncode : Any → Except String String
  /-- The function `validMethod` of `net/http`. -/
  validMethod : String → Bool
  /-- The function `removeEmptyPort` of `net/http`. -/
  removeEmptyPort : String → String
  /-- The value `http.DefaultClient`. -/
  DefaultClient : Doer Any
  /-- Modelled from the spec: the default decoder `jsonDecoder` (declared
  with `ResponseDecoder`), which parses the response body as JSON into the
  target. -/
  jsonDecoder : ResponseDecoder Any

/-! ## The helpers of `utilx` -/

namespace utilx

/-- Modelled from the spec: `utilx.Empty` on a value of interface type (the
package is imported, its source is not part of the repository); the spec
speaks of an input that is "empty/null", here the nil interface. -/
def Empty {α : Type} (v : Option α) : Bool := v.isNone

/-- Modelled from the spec: `utilx.NotEmpty` on a value of interface type. -/
def NotEmpty {α : Type} (v : Option α) : Bool := !Empty v

/-- Modelled from the spec: `utilx.NotEmpty` on a string ("if the resulting
content-type string is non-empty"). -/
def NotEmptyString (s : String) : Bool := !decide (s = "")

/-- Modelled from the spec: `utilx.And` ("if both parse successfully"). -/
def And (a b : Bool) : Bool := a && b

end utilx

/-- The Go test `err == nil` on the result of a call. -/
def errNil {ε α : Type} : Except ε α → Bool
  | .ok _ => true
  | .error _ => false

/-! ## `body.go` -/

def contentType : String := "Content-Type"

def jsonContentType : String := "application/json"

def formContentType : String := "application/x-www-form-urlencoded"

/-- The implementations of the interface `BodyProvider`: the three of
`body.go`, and any other one, given by what its two methods return. -/
inductive BodyProvider (Any : Type) where
  | bodyProvider (body : Reader Any)
  | jsonBodyProvider (payload : Any)
  | formBodyProvider (payload : Any)
  | other (contentType : String) (body : Except String (Reader Any))

/-- The method `ContentType` of each provider. -/
def BodyProvider.ContentType {Any : Type} : BodyProvider Any → String
  | .bodyProvider _ => ""
  | .jsonBodyProvider _ => jsonContentType
  | .formBodyProvider _ => formContentType
  | .other ct _ => ct

/-! ## `http.Header` -/

namespace http

/-- Go `h[key]` on a header map; a missing key reads as the nil slice. -/
def Header.index (h : Header) (key : String) : Slice :=
  (GoMap.find h key).getD Slice.null

/-- Go `Header.Add`, that is `textproto.MIMEHeader.Add`:
`key = CanonicalMIMEHeaderKey(key); h[key] = append(h[key], value)`. -/
def Header.Add {Any : Type} (L : Lib Any) (m : Arrays) (h : Header) (key value : String) :
    Arrays × Header :=
  let key := L.CanonicalMIMEHeaderKey key
  let r := Slice.append L.grow m (Header.index h key) value
  (r.1, GoMap.assign h key r.2)

/-- Go `Header.Set`: `h[CanonicalMIMEHeaderKey(key)] = []string{value}`. -/
def Header.Set {Any : Type} (L : Lib Any) (m : Arrays) (h : Header) (key value : String) :
    Arrays × Header :=
  let r := Slice.literal m value
  (r.1, GoMap.assign h (L.CanonicalMIMEHeaderKey key) r.2)

/-- Go `Header.Values`: the values under `CanonicalMIMEHeaderKey(key)`. -/
def Header.Values {Any : Type} (L : Lib Any) (m : Arrays) (h : Header) (key : String) :
    List String :=
  (Header.index h (L.CanonicalMIMEHeaderKey key)).read m

end http

/-! ## `client.go`: the builder -/

/-- Go `Client`. The decoder and the executor are never nil (`New` installs
the defaults and the setters ignore an empty argument). The list of query
sources is held by value: `New` on a parent copies the elements into a fresh
array, so no two builders share one. -/
structure Client (Any : Type) where
  httpClient : Doer Any
  method : String
  rawURL : String
  header : http.Header
  queryStructs : List Any
  bodyProvider : Option (BodyProvider Any)
  responseDecoder : ResponseDecoder Any
  signer : Option (SignerProvider Any)

/-- Go `New()`. -/
def New {Any : Type} (L : Lib Any) : Client Any :=
  { httpClient := L.DefaultClient
    method := "GET"
    rawURL := ""
    header := []
    queryStructs := []
    bodyProvider := none
    responseDecoder := L.jsonDecoder
    signer := some noopSigner }

namespace Client

variable {Any : Type}

/-- Go `(s *Client) New()`. The loop `headerCopy[k] = v` stores, for each key
of the parent, the parent's slice header itself in the new map. -/
def New (L : Lib Any) (s : Client Any) : Client Any :=
  let headerCopy : http.Header :=
    (L.rangeHeader s.header).foldl
      (fun hc k => GoMap.assign hc k (http.Header.index s.header k)) []
  { httpClient := s.httpClient
    method := s.method
    rawURL := s.rawURL
    header := headerCopy
    queryStructs := [] ++ s.queryStructs
    bodyProvider := s.bodyProvider
    responseDecoder := s.responseDecoder
    signer := s.signer }

/-- Go `(s *Client) Add`. -/
def Add (L : Lib Any) (m : Arrays) (s : Client Any) (key value : String) :
    Arrays × Client Any :=
  let r := http.Header.Add L m s.header key value
  (r.1, { s with header := r.2 })

/-- Go `(s *Client) Set`. -/
def Set (L : Lib Any) (m : Arrays) (s : Client Any) (key value : String) :
    Arrays × Client Any :=
  let r := http.Header.Set L m s.header key value
  (r.1, { s with header := r.2 })

/-- Go `(s *Client) Base`. -/
def Base (s : Client Any) (rawURL : String) : Client Any :=
  { s with rawURL := rawURL }

end Client

/-- Go `(*URL).ResolveReference` of `net/url`, over the helpers of `Lib`. -/
def url.ResolveReference {Any : Type} (L : Lib Any) (u ref : url.URL) : url.URL :=
  let setPath (x : url.URL) (p : String) : url.URL :=
    match L.setPath x p with
    | .ok y => y
    | .error _ => x
  let url0 : url.URL := ref
  let url1 : url.URL := if ref.Scheme = "" then { url0 with Scheme := u.Scheme } else url0
  if ref.Scheme ≠ "" ∨ ref.Host ≠ "" ∨ ref.User ≠ none then
    setPath url1 (L.resolvePath (L.EscapedPath ref) "")
  else if ref.Opaque ≠ "" then
    { url1 with User := none, Host := "", Path := "" }
  else
    let url2 : url.URL :=
      if ref.Path = "" ∧ !ref.ForceQuery ∧ ref.RawQuery = "" then
        let url2 := { url1 with RawQuery := u.RawQuery }
        if ref.Fragment = "" then
          { url2 with Fragment := u.Fragment, RawFragment := u.RawFragment }
        else url2
      else url1
    if ref.Path = "" ∧ u.Opaque ≠ "" then
      { url2 with Opaque := u.Opaque, User := none, Host := "", Path := "" }
    else
      setPath { url2 with Host := u.Host, User := u.User }
        (L.resolvePath (L.EscapedPath u) (L.EscapedPath ref))

namespace Client

variable {Any : Type}

/-- Go `(s *Client) Path`. When both errors are nil both URLs are non-nil, so
the last case of the match is never taken. -/
def Path (L : Lib Any) (s : Client Any) (path : String) : Client Any :=
  let base := L.Parse s.rawURL
  let ref := L.Parse path
  if utilx.And (errNil base) (errNil ref) then
    match base, ref with
    | .ok baseURL, .ok pathURL =>
      { s with rawURL := L.URLString (url.ResolveReference L baseURL pathURL) }
    | _, _ => s
  else s

/-- Go `(s *Client) Head`. -/
def Head (L : Lib Any) (s : Client Any) (pathURL : String) : Client Any :=
  Path L { s with method := "HEAD" } pathURL

/-- Go `(s *Client) Get`. -/
def Get (L : Lib Any) (s : Client Any) (pathURL : String) : Client Any :=
  Path L { s with method := "GET" } pathURL

/-- Go `(s *Client) Post`. -/
def Post (L : Lib Any) (s : Client Any) (pathURL : String) : Client Any :=
  Path L { s with method := "POST" } pathURL

/-- Go `(s *Client) Put`. -/
def Put (L : Lib Any) (s : Client Any) (pathURL : String) : Client Any :=
  Path L { s with method := "PUT" } pathURL

/-- Go `(s *Client) Patch`. -/
def Patch (L : Lib Any) (s : Client Any) (pathURL : String) : Client Any :=
  Path L { s with method := "PATCH" } pathURL

/-- Go `(s *Client) Delete`. -/
def Delete (L : Lib Any) (s : Client Any) (pathURL : String) : Client Any :=
  Path L { s with method := "DELETE" } pathURL

/-- Go `(s *Client) Options`. -/
def Options (L : Lib Any) (s : Client Any) (pathURL : String) : Client Any :=
  Path L { s with method := "OPTIONS" } pathURL

/-- Go `(s *Client) Trace`. -/
def Trace (L : Lib Any) (s : Client Any) (pathURL : String) : Client Any :=
  Path L { s with method := "TRACE" } pathURL

/-- Go `(s *Client) Connect`. -/
def Connect (L : Lib Any) (s : Client Any) (pathURL : String) : Client Any :=
  Path L { s with method := "CONNECT" } pathURL

/-- Go `(s *Client) QueryStruct`. -/
def QueryStruct (s : Client Any) (queryStruct : Option Any) : Client Any :=
  if utilx.NotEmpty queryStruct then
    match queryStruct with
    | some q => { s with queryStructs := s.queryStructs ++ [q] }
    | none => s
  else s

/-- Go `(s *Client) BodyProvider`. -/
def BodyProvider (L : Lib Any) (m : Arrays) (s : Client Any) (body : Option (BodyProvider Any)) :
    Arrays × Client Any :=
  if utilx.Empty body then (m, s)
  else
    match body with
    | none => (m, s)
    | some b =>
      let s1 := { s with bodyProvider := some b }
      let ct := b.ContentType
      if utilx.NotEmptyString ct then Set L m s1 contentType ct else (m, s1)

/-- Go `(s *Client) Body`. -/
def Body (L : Lib Any) (m : Arrays) (s : Client Any) (body : Option (Reader Any)) :
    Arrays × Client Any :=
  if utilx.Empty body then (m, s)
  else
    match body with
    | none => (m, s)
    | some r => BodyProvider L m s (some (.bodyProvider r))

/-- Go `(s *Client) BodyJSON`. -/
def BodyJSON (L : Lib Any) (m : Arrays) (s : Client Any) (bodyJSON : Option Any) :
    Arrays × Client Any :=
  if utilx.Empty bodyJSON then (m, s)
  else
    match bodyJSON with
    | none => (m, s)
    | some v => BodyProvider L m s (some (.jsonBodyProvider v))

/-- Go `(s *Client) BodyForm`. -/
def BodyForm (L : Lib Any) (m : Arrays) (s : Client Any) (bodyForm : Option Any) :
    Arrays × Client Any :=
  if utilx.Empty bodyForm then (m, s)
  else
    match bodyForm with
    | none => (m, s)
    | some v => BodyProvider L m s (some (.formBodyProvider v))

end Client

/-! ## Materialization: `Request` and `addQueryStructs` -/

/-- The Go comparison `a <= b` of two strings, byte by byte. -/
def bytesLE : List Char → List Char → Bool
  | [], _ => true
  | _ :: _, [] => false
  | a :: as, b :: bs => a.toNat < b.toNat || (a.toNat = b.toNat && bytesLE as bs)

/-- The order `slices.Sort` puts strings in. -/
def strLE (a b : String) : Prop := bytesLE a.data b.data = true

instance strLE.decidable : DecidableRel strLE := fun a b =>
  inferInstanceAs (Decidable (bytesLE a.data b.data = true))

/-- Go `(v Values) Encode` of `net/url`: the keys are sorted, and every value
of a key is written as `key=value`, escaped, the pairs separated by `&`. -/
def url.Values.Encode {Any : Type} (L : Lib Any) (v : url.Values) : String :=
  if (GoMap.keys v).length = 0 then ""
  else
    let keys := List.insertionSort strLE (GoMap.keys v)
    keys.foldl
      (fun buf k =>
        let vs := url.Values.index v k
        let keyEscaped := L.QueryEscape k
        vs.foldl
          (fun buf x =>
            let buf := if buf.length > 0 then buf ++ "&" else buf
            buf ++ keyEscaped ++ "=" ++ L.QueryEscape x)
          buf)
      ""

/-- The two inner loops of `addQueryStructs`: every value of every key of one
encoded source is added to `urlValues`, the keys in the order `range` yields
them. -/
def addQueryValues {Any : Type} (L : Lib Any) (urlValues queryValues : url.Values) :
    url.Values :=
  (L.rangeValues queryValues).foldl
    (fun uv key =>
      (url.Values.index queryValues key).foldl (fun uv value => url.Values.Add uv key value) uv)
    urlValues

/-- The outer loop of `addQueryStructs`: the sources in insertion order; the
first source that fails to encode ends the loop with its error. -/
def addQueryLoop {Any : Type} (L : Lib Any) (urlValues : url.Values) :
    List Any → Except String url.Values
  | [] => .ok urlValues
  | queryStruct :: rest =>
    match L.goqueryValues queryStruct with
    | .error err => .error err
    | .ok queryValues => addQueryLoop L (addQueryValues L urlValues queryValues) rest

/-- Go `addQueryStructs`. The URL is returned instead of updated in place; on
an error the caller drops it. -/
def addQueryStructs {Any : Type} (L : Lib Any) (reqURL : url.URL) (queryStructs : List Any) :
    Except String url.URL :=
  match L.ParseQuery reqURL.RawQuery with
  | .error err => .error err
  | .ok urlValues =>
    match addQueryLoop L urlValues queryStructs with
    | .error err => .error err
    | .ok urlValues => .ok { reqURL with RawQuery := url.Values.Encode L urlValues }

/-- The method `Body` of each provider of `body.go`. -/
def BodyProvider.Body {Any : Type} (L : Lib Any) : BodyProvider Any → Except String (Reader Any)
  | .bodyProvider body => .ok body
  | .jsonBodyProvider payload =>
    match L.jsonEncode payload with
    | .error err => .error err
    | .ok buf => .ok (.text buf)
  | .formBodyProvider payload =>
    match L.goqueryValues payload with
    | .error err => .error err
    | .ok values => .ok (.text (url.Values.Encode L values))
  | .other _ body => body

/-- Go `http.NewRequestWithContext`. -/
def http.NewRequestWithContext {Any : Type} (L : Lib Any) (ctx : Option Any)
    (method urlStr : String) (body : Option (Reader Any)) : Except String (http.Request Any) :=
  let method := if method = "" then "GET" else method
  if !L.validMethod method then .error "net/http: invalid method"
  else
    match ctx with
    | none => .error "net/http: nil Context"
    | some ctx =>
      match L.Parse urlStr with
      | .error err => .error err
      | .ok u =>
        let u := { u with Host := L.removeEmptyPort u.Host }
        .ok { ctx := ctx, Method := method, URL := u, Header := [], Body := body, Host := u.Host }

/-- Go `addHeaders`: every value of every key of the builder's header map is
added to the request's header. -/
def addHeaders {Any : Type} (L : Lib Any) (m : Arrays) (req : http.Request Any)
    (header : http.Header) : http.Request Any :=
  (L.rangeHeader header).foldl
    (fun req key =>
      ((http.Header.index header key).read m).foldl
        (fun req value =>
          { req with Header := url.Values.Add req.Header (L.CanonicalMIMEHeaderKey key) value })
        req)
    req

/-- Go `(s *Client) Request`. -/
def Client.Request {Any : Type} (L : Lib Any) (m : Arrays) (s : Client Any) (ctx : Option Any) :
    Except String (http.Request Any) :=
  match L.Parse s.rawURL with
  | .error err => .error err
  | .ok reqURL =>
    match addQueryStructs L reqURL s.queryStructs with
    | .error err => .error err
    | .ok reqURL =>
      let body : Except String (Option (Reader Any)) :=
        match s.bodyProvider with
        | none => .ok none
        | some bp =>
          match bp.Body L with
          | .error err => .error err
          | .ok r => .ok (some r)
      match body with
      | .error err => .error err
      | .ok body =>
        match http.NewRequestWithContext L ctx s.method (L.URLString reqURL) body with
        | .error err => .error err
        | .ok req =>
          let req := addHeaders L m req s.header
          match s.signer with
          | none => .ok req
          | some signer =>
            match signer req with
            | .error err => .error err
            | .ok h => .ok { req with Header := h }

/-! ## Execution: `Do` and `decodeResponse` -/

/-- What `Do` does to the outside, in order: a call of the response decoder
on a target, and the two deferred calls, draining the body and closing it. -/
inductive Event (Any : Type) where
  | decode (resp : http.Response Any) (target : Any)
  | drain (resp : http.Response Any)
  | close (resp : http.Response Any)

/-- How a call of `Do` ends: it returns a pair, or it panics (on the nil
response of an executor that reports no error). -/
inductive Outcome (Any : Type) where
  | returned (resp : Option (http.Response Any)) (err : Option String)
  | panicked

/-- Go `decodeResponse`: the error it returns and the decoder calls made. -/
def decodeResponse {Any : Type} (resp : http.Response Any) (decoder : ResponseDecoder Any)
    (successV failureV : Option Any) : Option String × List (Event Any) :=
  if 200 ≤ resp.StatusCode ∧ resp.StatusCode ≤ 299 then
    match successV with
    | some v => (decoder resp v, [.decode resp v])
    | none => (none, [])
  else
    match failureV with
    | some v => (decoder resp v, [.decode resp v])
    | none => (none, [])

/-- Go `(s *Client) Do`: how the call ends, and the events in order. The two
deferred calls run when the function returns, last deferred first. -/
def Client.Do {Any : Type} (s : Client Any) (req : http.Request Any)
    (successV failureV : Option Any) : Outcome Any × List (Event Any) :=
  match s.httpClient req with
  | (resp, some err) => (.returned resp (some err), [])
  | (none, none) => (.panicked, [])
  | (some resp, none) =>
    if resp.StatusCode = 204 ∨ resp.ContentLength = 0 then
      (.returned (some resp) none, [.drain resp, .close resp])
    else
      let r : Option String × List (Event Any) :=
        if successV.isSome || failureV.isSome then
          decodeResponse resp s.responseDecoder successV failureV
        else (none, [])
      (.returned (some resp) r.1, r.2 ++ [.drain resp, .close resp])

/-- Go `(s *Client) Receive`. -/
def Client.Receive {Any : Type} (L : Lib Any) (m : Arrays) (s : Client Any) (ctx : Option Any)
    (successV failureV : Option Any) : Outcome Any × List (Event Any) :=
  match Client.Request L m s ctx with
  | .error err => (.returned none (some err), [])
  | .ok req => Client.Do s req successV failureV

/-! ## The Go standard library functions, transcribed

A Go string is a sequence of bytes. A Lean string stands here for the Go
string whose bytes are the code points of its characters; text in ASCII
stands for itself. The functions below work on the list of characters. -/

namespace gostd

/-- Go `strings.Cut(s, sep)` for a separator of one byte. -/
def cut (sep : Char) : List Char → List Char × List Char × Bool
  | [] => ([], [], false)
  | c :: rest =>
    if c = sep then ([], rest, true)
    else
      let r := cut sep rest
      (c :: r.1, r.2.1, r.2.2)

/-- Go `strings.Contains(s, sep)` for a separator of one byte. -/
def containsByte (sep : Char) (s : List Char) : Bool := s.any (fun c => c = sep)

/-- Go `strings.LastIndex(s, sep)` for a separator of one byte; `none` is -1. -/
def lastIndex (sep : Char) : List Char → Option Nat
  | [] => none
  | c :: rest =>
    match lastIndex sep rest with
    | some i => some (i + 1)
    | none => if c = sep then some 0 else none

/-- Go `strings.Index(s, sub)`; `none` is -1. -/
def index (sub : List Char) : List Char → Option Nat
  | [] => if sub.isEmpty then some 0 else none
  | c :: rest =>
    if sub.isPrefixOf (c :: rest) then some 0
    else (index sub rest).map (· + 1)

/-- Go `ishex` of `net/url`. -/
def ishex (c : Char) : Bool :=
  ('0'.toNat ≤ c.toNat && c.toNat ≤ '9'.toNat)
  || ('a'.toNat ≤ c.toNat && c.toNat ≤ 'f'.toNat)
  || ('A'.toNat ≤ c.toNat && c.toNat ≤ 'F'.toNat)

/-- Go `unhex` of `net/url`. -/
def unhex (c : Char) : Nat :=
  if '0'.toNat ≤ c.toNat && c.toNat ≤ '9'.toNat then c.toNat - '0'.toNat
  else if 'a'.toNat ≤ c.toNat && c.toNat ≤ 'f'.toNat then c.toNat - 'a'.toNat + 10
  else if 'A'.toNat ≤ c.toNat && c.toNat ≤ 'F'.toNat then c.toNat - 'A'.toNat + 10
  else 0

/-- Go `encoding` of `net/url`: the part of a URL a text is escaped for. -/
inductive encoding where
  | encodePath
  | encodePathSegment
  | encodeHost
  | encodeZone
  | encodeUserPassword
  | encodeQueryComponent
  | encodeFragment
  deriving DecidableEq, Repr

open encoding

/-- The letters and digits of ASCII. -/
def isAlnum (c : Char) : Bool :=
  ('a'.toNat ≤ c.toNat && c.toNat ≤ 'z'.toNat)
  || ('A'.toNat ≤ c.toNat && c.toNat ≤ 'Z'.toNat)
  || ('0'.toNat ≤ c.toNat && c.toNat ≤ '9'.toNat)

/-- The apostrophe, byte 39. -/
def apostrophe : Char := Char.ofNat 39

/-- The double quote, byte 34. -/
def doubleQuote : Char := Char.ofNat 34

/-- Go `shouldEscape` of `net/url`. -/
def shouldEscape (c : Char) (mode : encoding) : Bool :=
  if isAlnum c then false
  else if (mode = encodeHost || mode = encodeZone)
      && [ '!', '$', '&', apostrophe, '(', ')', '*', '+', ',', ';', '=', ':', '[', ']', '<', '>',
           doubleQuote ].contains c then false
  else if ['-', '_', '.', '~'].contains c then false
  else if ['$', '&', '+', ',', '/', ':', ';', '=', '?', '@'].contains c then
    match mode with
    | encodePath => c = '?'
    | encodePathSegment => c = '/' || c = ';' || c = ',' || c = '?'
    | encodeUserPassword => c = '@' || c = '/' || c = '?' || c = ':'
    | encodeQueryComponent => true
    | encodeFragment => false
    | encodeHost => true
    | encodeZone => true
  else if mode = encodeFragment && ['!', '(', ')', '*'].contains c then false
  else true


/-- A text between double quotes, for the error messages. -/
def quote (s : List Char) : String := String.mk ([doubleQuote] ++ s ++ [doubleQuote])

/-- The digits of `upperhex`. -/
def upperhex (n : Nat) : Char :=
  "0123456789ABCDEF".data.getD (n % 16) '0'

/-- Go `escape` of `net/url`: a space becomes `+` in a query component, a byte
that should be escaped becomes `%XX`, every other byte stays. (The Go code
counts first, to size the buffer and to return early.) -/
def escape (s : List Char) (mode : encoding) : List Char :=
  s.flatMap (fun c =>
    if c = ' ' && mode = encodeQueryComponent then ['+']
    else if shouldEscape c mode then ['%', upperhex (c.toNat / 16), upperhex (c.toNat % 16)]
    else [c])

/-- The first loop of Go `unescape`: the `%` escapes are well-formed, and the
bytes are allowed for the mode. -/
def unescapeCheck (mode : encoding) : List Char → Except String Unit
  | [] => .ok ()
  | c :: rest =>
    if c = '%' then
      match rest with
      | a :: b :: rest2 =>
        if !ishex a || !ishex b then
          .error ("invalid URL escape " ++ quote (c :: rest.take 2))
        else if mode = encodeHost && unhex a < 8 && [c, a, b] ≠ "%25".data then
          .error ("invalid URL escape " ++ quote [c, a, b])
        else if mode = encodeZone
            && [c, a, b] ≠ "%25".data && Char.ofNat (unhex a * 16 + unhex b) ≠ ' '
            && shouldEscape (Char.ofNat (unhex a * 16 + unhex b)) encodeHost then
          .error ("invalid URL escape " ++ quote [c, a, b])
        else unescapeCheck mode rest2
      | _ => .error ("invalid URL escape " ++ quote (c :: rest.take 2))
    else if c = '+' then unescapeCheck mode rest
    else if (mode = encodeHost || mode = encodeZone) && c.toNat < 128
        && shouldEscape c encodeHost then
      .error ("invalid character " ++ quote [c] ++ " in host name")
    else unescapeCheck mode rest

/-- The second loop of Go `unescape`, on a text the first loop accepted. -/
def unescapeBytes (mode : encoding) : List Char → List Char
  | [] => []
  | c :: rest =>
    if c = '%' then
      match rest with
      | a :: b :: rest2 => Char.ofNat (unhex a * 16 + unhex b) :: unescapeBytes mode rest2
      | _ => []
    else if c = '+' then
      (if mode = encodeQueryComponent then ' ' else '+') :: unescapeBytes mode rest
    else c :: unescapeBytes mode rest

/-- Go `unescape` of `net/url`. -/
def unescape (s : List Char) (mode : encoding) : Except String (List Char) :=
  match unescapeCheck mode s with
  | .error err => .error err
  | .ok _ => .ok (unescapeBytes mode s)

/-- Go `url.QueryEscape`. -/
def QueryEscape (s : String) : String := String.mk (escape s.data encodeQueryComponent)

/-- Go `url.QueryUnescape`. -/
def QueryUnescape (s : List Char) : Except String (List Char) := unescape s encodeQueryComponent

/-- Go `stringContainsCTLByte` of `net/url`. -/
def stringContainsCTLByte (s : List Char) : Bool :=
  s.any (fun b => b.toNat < ' '.toNat || b.toNat = 127)

/-- Go `getScheme` of `net/url`; `seen` holds the bytes read so far. -/
def getSchemeFrom (rawURL : List Char) (seen : List Char) :
    List Char → Except String (List Char × List Char)
  | [] => .ok ([], rawURL)
  | c :: rest =>
    if ('a'.toNat ≤ c.toNat && c.toNat ≤ 'z'.toNat) || ('A'.toNat ≤ c.toNat && c.toNat ≤ 'Z'.toNat) then
      getSchemeFrom rawURL (seen ++ [c]) rest
    else if ('0'.toNat ≤ c.toNat && c.toNat ≤ '9'.toNat) || c = '+' || c = '-' || c = '.' then
      if seen.isEmpty then .ok ([], rawURL) else getSchemeFrom rawURL (seen ++ [c]) rest
    else if c = ':' then
      if seen.isEmpty then .error "missing protocol scheme" else .ok (seen, rest)
    else .ok ([], rawURL)

/-- Go `getScheme` of `net/url`. -/
def getScheme (rawURL : List Char) : Except String (List Char × List Char) :=
  getSchemeFrom rawURL [] rawURL

/-- Go `strings.ToLower` on ASCII letters. -/
def toLower (s : List Char) : List Char :=
  s.map (fun c => if 'A'.toNat ≤ c.toNat && c.toNat ≤ 'Z'.toNat then Char.ofNat (c.toNat + 32) else c)

/-- Go `validOptionalPort` of `net/url`. -/
def validOptionalPort (port : List Char) : Bool :=
  match port with
  | [] => true
  | c :: rest => c = ':' && rest.all (fun b => '0'.toNat ≤ b.toNat && b.toNat ≤ '9'.toNat)

/-- Go `validUserinfo` of `net/url`. -/
def validUserinfo (s : List Char) : Bool :=
  s.all (fun r => isAlnum r
    || ['-', '.', '_', ':', '~', '!', '$', '&', apostrophe, '(', ')', '*', '+', ',', ';', '=', '%',
        '@'].contains r)

end gostd

namespace gostd

open encoding

/-- Go `validEncoded` of `net/url`. -/
def validEncoded (s : List Char) (mode : encoding) : Bool :=
  s.all (fun c =>
    if ['!', '$', '&', apostrophe, '(', ')', '*', '+', ',', ';', '=', ':', '@'].contains c then true
    else if c = '[' || c = ']' then true
    else if c = '%' then true
    else !shouldEscape c mode)

/-- Go `(*URL).setPath` of `net/url`. -/
def setPath (u : url.URL) (p : String) : Except String url.URL :=
  match unescape p.data encodePath with
  | .error err => .error err
  | .ok path =>
    if p.data = escape path encodePath then .ok { u with Path := String.mk path, RawPath := "" }
    else .ok { u with Path := String.mk path, RawPath := p }

/-- Go `(*URL).setFragment` of `net/url`. -/
def setFragment (u : url.URL) (f : List Char) : Except String url.URL :=
  match unescape f encodeFragment with
  | .error err => .error err
  | .ok frag =>
    if f = escape frag encodeFragment then
      .ok { u with Fragment := String.mk frag, RawFragment := "" }
    else .ok { u with Fragment := String.mk frag, RawFragment := String.mk f }

/-- Go `(*URL).EscapedPath` of `net/url`. -/
def EscapedPath (u : url.URL) : String :=
  if u.RawPath ≠ "" && validEncoded u.RawPath.data encodePath
      && unescape u.RawPath.data encodePath = .ok u.Path.data then u.RawPath
  else if u.Path = "*" then "*"
  else String.mk (escape u.Path.data encodePath)

/-- Go `(*URL).EscapedFragment` of `net/url`. -/
def EscapedFragment (u : url.URL) : String :=
  if u.RawFragment ≠ "" && validEncoded u.RawFragment.data encodeFragment
      && unescape u.RawFragment.data encodeFragment = .ok u.Fragment.data then u.RawFragment
  else String.mk (escape u.Fragment.data encodeFragment)

/-- Go `parseHost` of `net/url`. -/
def parseHost (host : List Char) : Except String (List Char) :=
  if ['['].isPrefixOf host then
    match lastIndex ']' host with
    | none => .error "missing ] in host"
    | some i =>
      let colonPort := host.drop (i + 1)
      if !validOptionalPort colonPort then
        .error ("invalid port " ++ quote colonPort ++ " after host")
      else
        match index "%25".data (host.take i) with
        | some zone =>
          match unescape (host.take zone) encodeHost with
          | .error err => .error err
          | .ok host1 =>
            match unescape ((host.take i).drop zone) encodeZone with
            | .error err => .error err
            | .ok host2 =>
              match unescape (host.drop i) encodeHost with
              | .error err => .error err
              | .ok host3 => .ok (host1 ++ host2 ++ host3)
        | none => unescape host encodeHost
  else
    match lastIndex ':' host with
    | some i =>
      let colonPort := host.drop i
      if !validOptionalPort colonPort then
        .error ("invalid port " ++ quote colonPort ++ " after host")
      else unescape host encodeHost
    | none => unescape host encodeHost

/-- Go `parseAuthority` of `net/url`. -/
def parseAuthority (authority : List Char) :
    Except String (Option url.Userinfo × List Char) :=
  let i := lastIndex '@' authority
  let hostResult :=
    match i with
    | none => parseHost authority
    | some i => parseHost (authority.drop (i + 1))
  match hostResult with
  | .error err => .error err
  | .ok host =>
    match i with
    | none => .ok (none, host)
    | some i =>
      let userinfo := authority.take i
      if !validUserinfo userinfo then .error "net/url: invalid userinfo"
      else if !containsByte ':' userinfo then
        match unescape userinfo encodeUserPassword with
        | .error err => .error err
        | .ok userinfo => .ok (some ⟨String.mk userinfo, "", false⟩, host)
      else
        let r := cut ':' userinfo
        match unescape r.1 encodeUserPassword with
        | .error err => .error err
        | .ok username =>
          match unescape r.2.1 encodeUserPassword with
          | .error err => .error err
          | .ok password => .ok (some ⟨String.mk username, String.mk password, true⟩, host)

/-- Go `strings.Count(s, sep)` for a separator of one byte. -/
def countByte (sep : Char) (s : List Char) : Nat := s.countP (fun c => c = sep)

/-- Go `parse` of `net/url`. -/
def parse (rawURL : List Char) (viaRequest : Bool) : Except String url.URL :=
  if stringContainsCTLByte rawURL then .error "net/url: invalid control character in URL"
  else if rawURL.isEmpty && viaRequest then .error "empty url"
  else if rawURL = ['*'] then .ok { Path := "*" }
  else
    match getScheme rawURL with
    | .error err => .error err
    | .ok (scheme, rest) =>
      let url0 : url.URL := { Scheme := String.mk (toLower scheme) }
      let forced := rest.getLast? = some '?' && countByte '?' rest = 1
      let r := cut '?' rest
      let rest := if forced then rest.dropLast else r.1
      let url1 : url.URL :=
        if forced then { url0 with ForceQuery := true }
        else { url0 with RawQuery := String.mk r.2.1 }
      let rooted := ['/'].isPrefixOf rest
      if !rooted && url1.Scheme ≠ "" then
        .ok { url1 with Opaque := String.mk rest }
      else if !rooted && viaRequest then .error "invalid URI for request"
      else if !rooted && containsByte ':' (cut '/' rest).1 then
        .error "first path segment in URL cannot contain colon"
      else if (url1.Scheme ≠ "" || (!viaRequest && !"///".data.isPrefixOf rest))
          && "//".data.isPrefixOf rest then
        let authority := rest.drop 2
        let i := index ['/'] authority
        let rest := match i with
          | some i => authority.drop i
          | none => []
        let authority := match i with
          | some i => authority.take i
          | none => authority
        match parseAuthority authority with
        | .error err => .error err
        | .ok (user, host) => setPath { url1 with User := user, Host := String.mk host } (String.mk rest)
      else if url1.Scheme ≠ "" && rooted then
        setPath { url1 with OmitHost := true } (String.mk rest)
      else setPath url1 (String.mk rest)

/-- Go `url.Parse`. -/
def Parse (rawURL : String) : Except String url.URL :=
  let r := cut '#' rawURL.data
  match parse r.1 false with
  | .error err => .error ("parse " ++ quote r.1 ++ ": " ++ err)
  | .ok u =>
    if r.2.1 = [] then .ok u
    else
      match setFragment u r.2.1 with
      | .error err => .error ("parse " ++ quote rawURL.data ++ ": " ++ err)
      | .ok u => .ok u

/-- Go `(*Userinfo).String` of `net/url`, on a non-nil receiver. -/
def UserinfoString (u : url.Userinfo) : List Char :=
  let s := escape u.username.data encodeUserPassword
  if u.passwordSet then s ++ [':'] ++ escape u.password.data encodeUserPassword else s

/-- Go `(*URL).String` of `net/url`. -/
def URLString (u : url.URL) : String :=
  let buf : List Char := if u.Scheme ≠ "" then u.Scheme.data ++ [':'] else []
  let buf : List Char :=
    if u.Opaque ≠ "" then buf ++ u.Opaque.data
    else
      let buf : List Char :=
        if u.Scheme ≠ "" || u.Host ≠ "" || u.User.isSome then
          if u.OmitHost && u.Host = "" && u.User.isNone then buf
          else
            let buf := if u.Host ≠ "" || u.Path ≠ "" || u.User.isSome then buf ++ ['/', '/'] else buf
            let buf := match u.User with
              | some ui => buf ++ UserinfoString ui ++ ['@']
              | none => buf
            if u.Host ≠ "" then buf ++ escape u.Host.data encodeHost else buf
        else buf
      let path := (EscapedPath u).data
      let buf := if path ≠ [] && path.head? ≠ some '/' && u.Host ≠ "" then buf ++ ['/'] else buf
      let buf :=
        if buf.length = 0 && containsByte ':' (cut '/' path).1 then buf ++ ['.', '/'] else buf
      buf ++ path
  let buf := if u.ForceQuery || u.RawQuery ≠ "" then buf ++ ['?'] ++ u.RawQuery.data else buf
  let buf := if u.Fragment ≠ "" then buf ++ ['#'] ++ (EscapedFragment u).data else buf
  String.mk buf

/-- The pieces of a text between the separators: what repeated
`strings.Cut(remaining, sep)` yields as `elem`, until `found` is false. -/
def pieces (sep : Char) : List Char → List (List Char)
  | [] => [[]]
  | c :: rest =>
    if c = sep then [] :: pieces sep rest
    else
      match pieces sep rest with
      | [] => [[c]]
      | p :: ps => (c :: p) :: ps

/-- One round of the loop of Go `resolvePath`, on the state `(dst, first)`. -/
def resolveStep (st : List Char × Bool) (elem : List Char) : List Char × Bool :=
  if elem = ['.'] then (st.1, false)
  else if elem = ['.', '.'] then
    let str := st.1.drop 1
    match lastIndex '/' str with
    | none => (['/'], true)
    | some i => (['/'] ++ str.take i, st.2)
  else
    ((if !st.2 then st.1 ++ ['/'] else st.1) ++ elem, false)

/-- Go `resolvePath` of `net/url`. -/
def resolvePath (base ref : String) : String :=
  let full : List Char :=
    if ref = "" then base.data
    else if ref.data.head? ≠ some '/' then
      (match lastIndex '/' base.data with
        | some i => base.data.take (i + 1)
        | none => []) ++ ref.data
    else ref.data
  if full = [] then ""
  else
    let elems := pieces '/' full
    let dst := (elems.foldl resolveStep (['/'], true)).1
    let elem := elems.getLast?.getD []
    let dst := if elem = ['.'] || elem = ['.', '.'] then dst ++ ['/'] else dst
    let r := if dst.length > 1 && dst.get? 1 = some '/' then dst.drop 1 else dst
    String.mk r

/-- The loop of Go `parseQuery` of `net/url`, on the state `(m, err)`; the
text left gets shorter every round, `fuel` bounds the rounds. -/
def parseQueryLoop : Nat → List Char → url.Values × Option String → url.Values × Option String
  | 0, _, st => st
  | fuel + 1, query, st =>
    if query = [] then st
    else
      let r := cut '&' query
      let key := r.1
      let query := r.2.1
      if containsByte ';' key then
        parseQueryLoop fuel query (st.1, some "invalid semicolon separator in query")
      else if key = [] then parseQueryLoop fuel query st
      else
        let kv := cut '=' key
        match QueryUnescape kv.1 with
        | .error err1 => parseQueryLoop fuel query (st.1, if st.2.isNone then some err1 else st.2)
        | .ok key =>
          match QueryUnescape kv.2.1 with
          | .error err1 =>
            parseQueryLoop fuel query (st.1, if st.2.isNone then some err1 else st.2)
          | .ok value =>
            parseQueryLoop fuel query
              (url.Values.Add st.1 (String.mk key) (String.mk value), st.2)

/-- Go `url.ParseQuery`; with an error the caller, `addQueryStructs`, drops
the values. -/
def ParseQuery (query : String) : Except String url.Values :=
  match parseQueryLoop (query.data.length + 1) query.data ([], none) with
  | (_, some err) => .error err
  | (m, none) => .ok m

/-- Go `validHeaderFieldByte` of `net/textproto`: the bytes of an RFC 7230
token. -/
def validHeaderFieldByte (c : Char) : Bool :=
  isAlnum c
  || ['!', '#', '$', '%', '&', apostrophe, '*', '+', '-', '.', '^', '_', Char.ofNat 96, '|',
      '~'].contains c

/-- The second loop of Go `canonicalMIMEHeaderKey`: upper case for the first
letter and after each dash, lower case elsewhere. -/
def canonicalCase : Bool → List Char → List Char
  | _, [] => []
  | upper, c :: rest =>
    let c :=
      if upper && 'a'.toNat ≤ c.toNat && c.toNat ≤ 'z'.toNat then Char.ofNat (c.toNat - 32)
      else if !upper && 'A'.toNat ≤ c.toNat && c.toNat ≤ 'Z'.toNat then Char.ofNat (c.toNat + 32)
      else c
    c :: canonicalCase (c = '-') rest

/-- Go `canonicalMIMEHeaderKey` of `net/textproto`: a key with a byte that is
no token byte is returned as it is. -/
def canonicalMIMEHeaderKeyBytes (a : List Char) : List Char :=
  if a.all (fun c => validHeaderFieldByte c || c = ' ') then
    if a.any (fun c => !validHeaderFieldByte c) then a else canonicalCase true a
  else a

/-- The quick check of Go `textproto.CanonicalMIMEHeaderKey`: the bytes up
to the first one that is invalid or in the wrong case; `true` when the key is
to be canonicalized. -/
def needsCanonical : Bool → List Char → Bool
  | _, [] => false
  | upper, c :: rest =>
    if !validHeaderFieldByte c then false
    else if upper && 'a'.toNat ≤ c.toNat && c.toNat ≤ 'z'.toNat then true
    else if !upper && 'A'.toNat ≤ c.toNat && c.toNat ≤ 'Z'.toNat then true
    else needsCanonical (c = '-') rest

/-- Go `textproto.CanonicalMIMEHeaderKey`. -/
def CanonicalMIMEHeaderKey (s : String) : String :=
  if needsCanonical true s.data then String.mk (canonicalMIMEHeaderKeyBytes s.data) else s

/-- Go `validMethod` of `net/http`: a non-empty token. -/
def validMethod (method : String) : Bool :=
  method.data.length > 0 && method.data.all validHeaderFieldByte

/-- Go `removeEmptyPort` of `net/http`. -/
def removeEmptyPort (host : String) : String :=
  let hasPort : Bool :=
    match lastIndex ':' host.data, lastIndex ']' host.data with
    | some i, some j => i > j
    | some _, none => true
    | none, _ => false
  if hasPort && host.data.getLast? = some ':' then String.mk host.data.dropLast else host

end gostd

/-- A Go value passed as `interface{}` to the builder, given by what the
encoders of the imported packages make of it: the pairs `query.Values` of
`go-querystring` puts in its result, in order, and the text `json.Encoder`
writes. -/
structure GoValue where
  name : String
  query : Except String (List (String × String))
  json : Except String String

/-- The imported functions as the Go standard library defines them, over
`GoValue`. A `range` visits the keys in the order the map holds them; the
default executor is a transport without a network, and the default decoder
accepts every body that has a JSON text. -/
def golib : Lib GoValue where
  CanonicalMIMEHeaderKey := gostd.CanonicalMIMEHeaderKey
  grow := growsliceCap
  Parse := gostd.Parse
  URLString := gostd.URLString
  EscapedPath := gostd.EscapedPath
  setPath := gostd.setPath
  resolvePath := gostd.resolvePath
  ParseQuery := gostd.ParseQuery
  QueryEscape := gostd.QueryEscape
  goqueryValues := fun v =>
    match v.query with
    | .error err => .error err
    | .ok pairs => .ok (pairs.foldl (fun m kv => url.Values.Add m kv.1 kv.2) [])
  rangeValues := GoMap.keys
  rangeHeader := GoMap.keys
  jsonEncode := fun v => v.json
  validMethod := gostd.validMethod
  removeEmptyPort := gostd.removeEmptyPort
  DefaultClient := fun _ => (none, some "dial: no network")
  jsonDecoder := fun resp _ =>
    match resp.Body.json with
    | .error err => some err
    | .ok _ => none

/-! ## Reference resolution, as RFC 3986 words it -/

namespace rfc3986

/-- RFC 3986, 5.2.4, step 2C: the output buffer without its last segment and
the "/" before it, if any. -/
def removeLastSegment (output : List Char) : List Char :=
  ((output.reverse.dropWhile (fun c => decide (c ≠ '/'))).drop 1).reverse

/-- RFC 3986, 5.2.4, step 2E: the first path segment of the input buffer,
with the initial "/" if any, up to but not including the next "/". -/
def firstSegment : List Char → List Char
  | [] => []
  | c :: rest => c :: rest.takeWhile (fun d => decide (d ≠ '/'))

/-- RFC 3986, 5.2.4, one round of step 2 on the input and output buffers:
A drops a leading "../" or "./"; B replaces a leading "/./", or "/." when it
is all the input, by "/"; C does so for "/../" and "/..", and removes the last
segment of the output; D drops an input that is "." or ".."; E moves the first
segment of the input to the end of the output. -/
def step (input output : List Char) : List Char × List Char :=
  if ['.', '.', '/'].isPrefixOf input then (input.drop 3, output)
  else if ['.', '/'].isPrefixOf input then (input.drop 2, output)
  else if ['/', '.', '/'].isPrefixOf input then (input.drop 2, output)
  else if input = ['/', '.'] then (['/'], output)
  else if ['/', '.', '.', '/'].isPrefixOf input then (input.drop 3, removeLastSegment output)
  else if input = ['/', '.', '.'] then (['/'], removeLastSegment output)
  else if input = ['.'] ∨ input = ['.', '.'] then ([], output)
  else (input.drop (firstSegment input).length, output ++ firstSegment input)

/-- RFC 3986, 5.2.4, step 2: rounds while the input buffer is not empty; each
round shortens the input, `fuel` bounds the rounds. -/
def loop : Nat → List Char → List Char → List Char
  | 0, _, output => output
  | fuel + 1, input, output =>
    if input = [] then output
    else loop fuel (step input output).1 (step input output).2

/-- RFC 3986, 5.2.4: `remove_dot_segments`. -/
def removeDotSegments (path : List Char) : List Char :=
  loop (path.length + 1) path []

/-- RFC 3986, 5.2.3: `merge` of a reference path with the path of the base:
"/" and the reference path when the base has an authority and an empty path,
else the base path up to and including its right-most "/" (nothing of it
when it has none), and the reference path. -/
def merge (baseHasAuthority : Bool) (basePath refPath : List Char) : List Char :=
  if baseHasAuthority && basePath = [] then '/' :: refPath
  else (basePath.reverse.dropWhile (fun c => decide (c ≠ '/'))).reverse ++ refPath

/-- The authority component of a URL value is defined. -/
def hasAuthority (u : url.URL) : Bool := u.Host ≠ "" || u.User.isSome

/-- The query component of a URL value is defined. -/
def hasQuery (u : url.URL) : Bool := u.ForceQuery || u.RawQuery ≠ ""

/-- The path component of a URL value, as it is written in a URL. -/
def path (u : url.URL) : List Char := (gostd.EscapedPath u).data

/-- A URL value with the given text as its path component, stored the way Go
stores a path (the value is left as it is when the text has a malformed
escape). -/
def withPath (u : url.URL) (p : List Char) : url.URL :=
  match gostd.setPath u (String.mk p) with
  | .ok t => t
  | .error _ => u

/-- RFC 3986, 5.2.2: the target `T` of the reference `R` against the base,
component by component. The scheme is defined when it is not empty, the
authority when there is a host or a user, the query when there is a query
text or a bare "?"; the fragment of `T` is that of `R` in every case. An
authority goes with its mark `OmitHost`. An opaque part of `R` stays with
`T`; one of the base is not read as a path. -/
def resolve (base R : url.URL) : url.URL :=
  if R.Scheme ≠ "" then
    withPath R (removeDotSegments (path R))
  else if hasAuthority R then
    withPath { R with Scheme := base.Scheme } (removeDotSegments (path R))
  else
    let T : url.URL :=
      { R with Scheme := base.Scheme, User := base.User, Host := base.Host,
               OmitHost := base.OmitHost }
    if path R = [] then
      if hasQuery R then withPath T (path base)
      else withPath { T with ForceQuery := base.ForceQuery, RawQuery := base.RawQuery } (path base)
    else if (path R).head? = some '/' then
      withPath T (removeDotSegments (path R))
    else
      withPath T (removeDotSegments (merge (hasAuthority base) (path base) (path R)))

end rfc3986

/-! ## The two halves of Go `resolvePath`, for the comparison with RFC 3986 -/

/-- The string form of the RFC 3986 resolution of the reference `P` against
the base `B`, both parsed. -/
def rfc3986.resolveString (B P : String) : Option String :=
  match golib.Parse B, golib.Parse P with
  | .ok b, .ok p => some (golib.URLString (rfc3986.resolve b p))
  | _, _ => none

/-- The URL string of a new builder with `Base(B)` after `Path(P)`. -/
def pathString (B P : String) : String :=
  (Client.Path golib (Client.Base (New golib) B) P).rawURL

/-- The reference resolution examples of RFC 3986, 5.4.1 and 5.4.2, against
the base `http://a/b/c/d;p?q`: a reference and its target. -/
def rfc3986.examples : List (String × String) :=
  [("g:h", "g:h"), ("g", "http://a/b/c/g"), ("./g", "http://a/b/c/g"),
   ("g/", "http://a/b/c/g/"), ("/g", "http://a/g"), ("//g", "http://g"),
   ("?y", "http://a/b/c/d;p?y"), ("g?y", "http://a/b/c/g?y"),
   ("#s", "http://a/b/c/d;p?q#s"), ("g#s", "http://a/b/c/g#s"),
   ("g?y#s", "http://a/b/c/g?y#s"), (";x", "http://a/b/c/;x"),
   ("g;x", "http://a/b/c/g;x"), ("g;x?y#s", "http://a/b/c/g;x?y#s"),
   ("", "http://a/b/c/d;p?q"), (".", "http://a/b/c/"), ("./", "http://a/b/c/"),
   ("..", "http://a/b/"), ("../", "http://a/b/"), ("../g", "http://a/b/g"),
   ("../..", "http://a/"), ("../../", "http://a/"), ("../../g", "http://a/g"),
   ("../../../g", "http://a/g"), ("../../../../g", "http://a/g"),
   ("/./g", "http://a/g"), ("/../g", "http://a/g"), ("g.", "http://a/b/c/g."),
   (".g", "http://a/b/c/.g"), ("g..", "http://a/b/c/g.."), ("..g", "http://a/b/c/..g"),
   ("./../g", "http://a/b/g"), ("./g/.", "http://a/b/c/g/"), ("g/./h", "http://a/b/c/g/h"),
   ("g/../h", "http://a/b/c/h"), ("g;x=1/./y", "http://a/b/c/g;x=1/y"),
   ("g;x=1/../y", "http://a/b/c/y"), ("g?y/./x", "http://a/b/c/g?y/./x"),
   ("g?y/../x", "http://a/b/c/g?y/../x"), ("g#s/./x", "http://a/b/c/g#s/./x"),
   ("g#s/../x", "http://a/b/c/g#s/../x"), ("http:g", "http:g")]

/-! ## Sequences of calls, for the statements -/

/-- One body-configuration call on a builder, with its argument. -/
inductive BodyCall (Any : Type) where
  | Body (body : Option (Reader Any))
  | BodyJSON (bodyJSON : Option Any)
  | BodyForm (bodyForm : Option Any)
  | BodyProvider (body : Option (BodyProvider Any))

/-- The effect of one body-configuration call. -/
def BodyCall.run {Any : Type} (L : Lib Any) (st : Arrays × Client Any) :
    BodyCall Any → Arrays × Client Any
  | .Body body => Client.Body L st.1 st.2 body
  | .BodyJSON v => Client.BodyJSON L st.1 st.2 v
  | .BodyForm v => Client.BodyForm L st.1 st.2 v
  | .BodyProvider b => Client.BodyProvider L st.1 st.2 b

/-- The effect of a sequence of body-configuration calls, first to last. -/
def runBodyCalls {Any : Type} (L : Lib Any) (st : Arrays × Client Any)
    (calls : List (BodyCall Any)) : Arrays × Client Any :=
  calls.foldl (BodyCall.run L) st

/-- The number of decoder calls among the events of a run. -/
def decodeCalls {Any : Type} : List (Event Any) → Nat
  | [] => 0
  | .decode _ _ :: rest => decodeCalls rest + 1
  | _ :: rest => decodeCalls rest

/-! ## The merged query, as the specification words it -/

/-- The value list of a key in the merged multimap, in the words of the
specification: the values the URL already has for the key, followed by the
values each query source contributes, the sources in insertion order. -/
def specMergedIndex (existing : url.Values) (sources : List url.Values) (key : String) :
    List String :=
  url.Values.index existing key ++ (sources.map (fun src => url.Values.index src key)).flatten

/-- The merged multimap of the specification: every key of the URL's query
or of a source, with its merged value list. -/
def specMergedValues (existing : url.Values) (sources : List url.Values) : url.Values :=
  ((GoMap.keys existing ++ (sources.map GoMap.keys).flatten).dedup).map
    (fun key => (key, specMergedIndex existing sources key))

/-- What `Encode` writes for one key: its values, each as `key=value`. -/
def encodeKey {Any : Type} (L : Lib Any) (v : url.Values) (buf : String) (k : String) : String :=
  (url.Values.index v k).foldl
    (fun buf x =>
      (if buf.length > 0 then buf ++ "&" else buf) ++ L.QueryEscape k ++ "=" ++ L.QueryEscape x)
    buf

/-! ## Concrete builders and values, for the runs -/

/-- A Go value that no encoder accepts, named by a text. -/
def plainValue (name : String) : GoValue :=
  { name := name, query := .error "query: Values() expects struct input", json := .error "json: unsupported type" }

/-- A response with the given status code and content length. -/
def responseWith (status length : Int) : http.Response GoValue :=
  { StatusCode := status, ContentLength := length, Body := plainValue "body" }

/-- A builder whose executor answers every request with the given pair, and
whose decoder fails on every target. -/
def clientAnswering (resp : Option (http.Response GoValue)) (err : Option String) :
    Client GoValue :=
  { New golib with
    httpClient := fun _ => (resp, err)
    responseDecoder := fun _ _ => some "decode: unexpected body" }

/-- A request for `GET http://example.com/`. -/
def exampleRequest : http.Request GoValue :=
  { ctx := plainValue "ctx", Method := "GET"
    URL := { Scheme := "http", Host := "example.com", Path := "/" }
    Header := [], Body := none, Host := "example.com" }

/-- A query source that encodes to `x=["2"]`. -/
def sourceX2 : GoValue :=
  { name := "query", query := .ok [("x", "2")], json := .error "json: unsupported type" }

/-- The builder of the scenario: method GET, base `http://example.com/api`,
path `items?x=1`, one query source encoding to `x=["2"]`. -/
def scenarioClient : Client GoValue :=
  Client.QueryStruct
    (Client.Get golib (Client.Base (New golib) "http://example.com/api") "items?x=1")
    (some sourceX2)

/-- The URL the builder of the scenario holds, parsed. -/
def scenarioURL : url.URL :=
  { Scheme := "http", Host := "example.com", Path := "/items", RawQuery := "x=1" }

/-- The parent of the aliasing run: `New().Add("A","1").Add("A","2").Add("A","3")`,
with the arrays allocated on the way. -/
def parentRun : Arrays × Client GoValue :=
  let r1 := Client.Add golib [] (New golib) "A" "1"
  let r2 := Client.Add golib r1.1 r1.2 "A" "2"
  Client.Add golib r2.1 r2.2 "A" "3"

/-- The child of the aliasing run, `c := p.New()`, after `c.Add("A","x")`. -/
def childRun : Arrays × Client GoValue :=
  Client.Add golib parentRun.1 (Client.New golib parentRun.2) "A" "x"

/-- The parent of the aliasing run after the child's call, and then its own
call `p.Add("A","y")`. -/
def parentAfterChild : Arrays × Client GoValue :=
  Client.Add golib childRun.1 parentRun.2 "A" "y"

/-! ## Theorems -/

section basic

variable {Any : Type}

theorem GoMap.find_assign_self {β : Type} (m : GoMap β) (key : String) (v : β) :
    GoMap.find (GoMap.assign m key v) key = some v := by
  induction m with
  | nil => simp [GoMap.assign, GoMap.find]
  | cons e rest ih =>
    obtain ⟨k, w⟩ := e
    by_cases hk : k = key
    · simp [GoMap.assign, GoMap.find, hk]
    · simp [GoMap.assign, GoMap.find, hk, ih]

theorem GoMap.find_assign_other {β : Type} (m : GoMap β) (key key2 : String) (v : β)
    (hne : key ≠ key2) :
    GoMap.find (GoMap.assign m key v) key2 = GoMap.find m key2 := by
  induction m with
  | nil => simp [GoMap.assign, GoMap.find, hne]
  | cons e rest ih =>
    obtain ⟨k, w⟩ := e
    by_cases hk : k = key
    · subst hk
      simp [GoMap.assign, GoMap.find, hne]
    · by_cases hk2 : k = key2
      · subst hk2
        simp [GoMap.assign, GoMap.find, hk]
      · simp [GoMap.assign, GoMap.find, hk, hk2, ih]

theorem Slice.read_literal (m : Arrays) (value : String) :
    (Slice.literal m value).2.read (Slice.literal m value).1 = [value] := by
  simp [Slice.literal, Slice.read, List.getD_eq_getElem?_getD]

theorem Client.Set_Values (L : Lib Any) (m : Arrays) (s : Client Any) (key value : String) :
    http.Header.Values L (Client.Set L m s key value).1 (Client.Set L m s key value).2.header key
      = [value] := by
  simp only [Client.Set, http.Header.Set, http.Header.Values, http.Header.index,
    GoMap.find_assign_self, Option.getD_some]
  exact Slice.read_literal m value

theorem Client.Path_method (L : Lib Any) (s : Client Any) (method path : String) :
    Client.Path L { s with method := method } path
      = { Client.Path L s path with method := method } := by
  unfold Client.Path
  simp only
  split
  · split <;> rfl
  · rfl

theorem GoMap.find_foldl_assign {β : Type} (f : String → β) (ks : List String) (hc : GoMap β)
    (k : String) :
    GoMap.find (ks.foldl (fun hc key => GoMap.assign hc key (f key)) hc) k
      = if k ∈ ks then some (f k) else GoMap.find hc k := by
  induction ks generalizing hc with
  | nil => simp
  | cons key rest ih =>
    simp only [List.foldl_cons, List.mem_cons]
    rw [ih]
    by_cases hr : k ∈ rest
    · simp [hr]
    · by_cases hk : k = key
      · subst hk
        simp [hr, GoMap.find_assign_self]
      · simp [hr, hk, GoMap.find_assign_other hc key k _ (fun h => hk h.symm)]

theorem GoMap.find_eq_none {β : Type} (m : GoMap β) (key : String)
    (h : key ∉ GoMap.keys m) : GoMap.find m key = none := by
  induction m with
  | nil => rfl
  | cons e rest ih =>
    obtain ⟨k, w⟩ := e
    simp only [GoMap.keys, List.map_cons, List.mem_dedup, List.mem_cons, not_or] at h ih
    simp only [GoMap.find]
    rw [if_neg (fun hk => h.1 hk.symm)]
    exact ih h.2

/-- What `p.New()` does copy: the child has the method, the URL string, the
query sources, the body provider, the decoder, the signer and the executor of
the parent, and under every key the slice header the parent has there, so the
same values, read from the same backing array. -/
theorem Client.New_copies (L : Lib Any) (hrange : ∀ h, (L.rangeHeader h).Perm (GoMap.keys h))
    (s : Client Any) :
    (Client.New L s).method = s.method
    ∧ (Client.New L s).rawURL = s.rawURL
    ∧ (Client.New L s).queryStructs = s.queryStructs
    ∧ (Client.New L s).bodyProvider = s.bodyProvider
    ∧ (Client.New L s).responseDecoder = s.responseDecoder
    ∧ (Client.New L s).signer = s.signer
    ∧ (Client.New L s).httpClient = s.httpClient
    ∧ ∀ k, http.Header.index (Client.New L s).header k = http.Header.index s.header k := by
  refine ⟨rfl, rfl, by simp [Client.New], rfl, rfl, rfl, rfl, ?_⟩
  intro k
  simp only [Client.New, http.Header.index]
  rw [GoMap.find_foldl_assign (fun key => (GoMap.find s.header key).getD Slice.null)]
  by_cases hk : k ∈ L.rangeHeader s.header
  · simp [hk]
  · have hnot : k ∉ GoMap.keys s.header := fun h => hk ((hrange s.header).mem_iff.mpr h)
    simp [hk, GoMap.find_eq_none s.header k hnot, GoMap.find]

/-- C10: after `Base(u)` the URL string of the builder is exactly `u`, whatever
it was before and whatever `u` is, and the method, the headers, the query
sources, the body provider, the decoder, the signer and the executor are the
ones from before; `New().Base("123")` has the URL string `"123"`. -/
theorem Base_replaces_rawURL (L : Lib Any) (s : Client Any) (u : String) :
    (Client.Base s u).rawURL = u
    ∧ (Client.Base s u).method = s.method
    ∧ (Client.Base s u).header = s.header
    ∧ (Client.Base s u).queryStructs = s.queryStructs
    ∧ (Client.Base s u).bodyProvider = s.bodyProvider
    ∧ (Client.Base s u).responseDecoder = s.responseDecoder
    ∧ (Client.Base s u).signer = s.signer
    ∧ (Client.Base s u).httpClient = s.httpClient
    ∧ (Client.Base (New L) "123").rawURL = "123" :=
  ⟨rfl, rfl, rfl, rfl, rfl, rfl, rfl, rfl, rfl⟩

/-- C9: each of the nine verb operations leaves the builder with the upper-case
name of the verb as its method and with the URL string `Path(p)` alone gives
from the same builder, for every builder and every path string;
`New().Post("http://zeisss.com/")` has the method `"POST"`. -/
theorem verb_sets_method_then_Path (L : Lib Any) (s : Client Any) (p : String) :
    ((Client.Get L s p).method = "GET" ∧ (Client.Get L s p).rawURL = (Client.Path L s p).rawURL)
    ∧ ((Client.Head L s p).method = "HEAD"
        ∧ (Client.Head L s p).rawURL = (Client.Path L s p).rawURL)
    ∧ ((Client.Post L s p).method = "POST"
        ∧ (Client.Post L s p).rawURL = (Client.Path L s p).rawURL)
    ∧ ((Client.Put L s p).method = "PUT" ∧ (Client.Put L s p).rawURL = (Client.Path L s p).rawURL)
    ∧ ((Client.Patch L s p).method = "PATCH"
        ∧ (Client.Patch L s p).rawURL = (Client.Path L s p).rawURL)
    ∧ ((Client.Delete L s p).method = "DELETE"
        ∧ (Client.Delete L s p).rawURL = (Client.Path L s p).rawURL)
    ∧ ((Client.Options L s p).method = "OPTIONS"
        ∧ (Client.Options L s p).rawURL = (Client.Path L s p).rawURL)
    ∧ ((Client.Trace L s p).method = "TRACE"
        ∧ (Client.Trace L s p).rawURL = (Client.Path L s p).rawURL)
    ∧ ((Client.Connect L s p).method = "CONNECT"
        ∧ (Client.Connect L s p).rawURL = (Client.Path L s p).rawURL)
    ∧ (Client.Post L (New L) "http://zeisss.com/").method = "POST" := by
  simp [Client.Get, Client.Head, Client.Post, Client.Put, Client.Patch, Client.Delete,
    Client.Options, Client.Trace, Client.Connect, Client.Path_method]

/-- C4: when the URL string of the builder or the path string fails to parse,
`Path` returns the builder as it was: the URL string, and every other field,
is unchanged, and no error is reported (the operation has none to report). -/
theorem Path_noop_on_parse_failure (L : Lib Any) (s : Client Any) (P : String)
    (hfail : errNil (L.Parse s.rawURL) = false ∨ errNil (L.Parse P) = false) :
    Client.Path L s P = s ∧ (Client.Path L s P).rawURL = s.rawURL := by
  have h : Client.Path L s P = s := by
    unfold Client.Path
    rcases hfail with h | h <;> simp [utilx.And, h]
  exact ⟨h, by rw [h]⟩

/-- C7: after any sequence of body-configuration calls on any builder, a final
`BodyJSON` with a non-empty payload leaves the `Content-Type` header with
exactly one value, `"application/json"`: the content type is set, not added. -/
theorem BodyJSON_sets_one_content_type (L : Lib Any) (m : Arrays) (s : Client Any)
    (calls : List (BodyCall Any)) (payload : Any) :
    http.Header.Values L
        (runBodyCalls L (m, s) (calls ++ [BodyCall.BodyJSON (some payload)])).1
        (runBodyCalls L (m, s) (calls ++ [BodyCall.BodyJSON (some payload)])).2.header
        "Content-Type"
      = ["application/json"] := by
  simp only [runBodyCalls, List.foldl_append, List.foldl_cons, List.foldl_nil, BodyCall.run,
    Client.BodyJSON, Client.BodyProvider, utilx.Empty, Option.isNone_some, BodyProvider.ContentType,
    jsonContentType, utilx.NotEmptyString, contentType]
  simp only [Bool.false_eq_true, if_false]
  rw [if_pos (by decide : (!decide ("application/json" = "")) = true)]
  exact Client.Set_Values L _ _ "Content-Type" "application/json"

/-- C2: when the executor returns a response without error and the status code
is 204 or the content length is 0, `Do` returns that response with a nil
error and never calls the decoder, whatever the two targets are. -/
theorem Do_skips_decoding_without_content (s : Client Any) (req : http.Request Any)
    (resp : http.Response Any) (successV failureV : Option Any)
    (hexec : s.httpClient req = (some resp, none))
    (hshort : resp.StatusCode = 204 ∨ resp.ContentLength = 0) :
    (Client.Do s req successV failureV).1 = .returned (some resp) none
    ∧ (Client.Do s req successV failureV).2 = [.drain resp, .close resp]
    ∧ decodeCalls (Client.Do s req successV failureV).2 = 0 := by
  simp [Client.Do, hexec, hshort, decodeCalls]

/-- C8: when the executor returns a (possibly nil) response together with a
non-nil error, `Do` returns exactly that pair and the decoder is not called. -/
theorem Do_returns_executor_error (s : Client Any) (req : http.Request Any)
    (r : Option (http.Response Any)) (e : String) (successV failureV : Option Any)
    (hexec : s.httpClient req = (r, some e)) :
    (Client.Do s req successV failureV).1 = .returned r (some e)
    ∧ (Client.Do s req successV failureV).2 = []
    ∧ decodeCalls (Client.Do s req successV failureV).2 = 0 := by
  simp [Client.Do, hexec, decodeCalls]

/-- C1: when the executor returns a response without error, the status code is
not 204 and the content length is not 0, `Do` calls the decoder at most once.
With a status in [200,299] the decoder is called exactly when `successV` is
non-nil, on `successV` and on nothing else; with a status outside, exactly
when `failureV` is non-nil, on `failureV` and on nothing else. When the
target of the branch is nil there is no decoder call and `Do` returns the
response with a nil error; when the decoder is called `Do` returns the
response with the error the decoder returned. -/
theorem Do_decodes_by_status (s : Client Any) (req : http.Request Any)
    (resp : http.Response Any) (successV failureV : Option Any)
    (hexec : s.httpClient req = (some resp, none))
    (hstatus : resp.StatusCode ≠ 204) (hlength : resp.ContentLength ≠ 0) :
    decodeCalls (Client.Do s req successV failureV).2 ≤ 1
    ∧ ((200 ≤ resp.StatusCode ∧ resp.StatusCode ≤ 299) →
        (∀ v, successV = some v →
          Client.Do s req successV failureV
            = (.returned (some resp) (s.responseDecoder resp v),
                [.decode resp v, .drain resp, .close resp]))
        ∧ (successV = none →
          Client.Do s req successV failureV
            = (.returned (some resp) none, [.drain resp, .close resp])))
    ∧ (¬ (200 ≤ resp.StatusCode ∧ resp.StatusCode ≤ 299) →
        (∀ v, failureV = some v →
          Client.Do s req successV failureV
            = (.returned (some resp) (s.responseDecoder resp v),
                [.decode resp v, .drain resp, .close resp]))
        ∧ (failureV = none →
          Client.Do s req successV failureV
            = (.returned (some resp) none, [.drain resp, .close resp]))) := by
  have hshort : ¬ (resp.StatusCode = 204 ∨ resp.ContentLength = 0) := by
    rintro (h | h)
    · exact hstatus h
    · exact hlength h
  refine ⟨?_, ?_, ?_⟩
  · cases successV <;> cases failureV <;>
      by_cases hc : (200 ≤ resp.StatusCode ∧ resp.StatusCode ≤ 299) <;>
      simp [Client.Do, hexec, hshort, decodeResponse, hc, decodeCalls]
  · intro hc
    refine ⟨?_, ?_⟩
    · intro v hv
      subst hv
      simp [Client.Do, hexec, hshort, decodeResponse, hc]
    · intro hv
      subst hv
      cases failureV <;> simp [Client.Do, hexec, hshort, decodeResponse, hc]
  · intro hc
    refine ⟨?_, ?_⟩
    · intro v hv
      subst hv
      cases successV <;> simp [Client.Do, hexec, hshort, decodeResponse, hc]
    · intro hv
      subst hv
      cases successV <;> simp [Client.Do, hexec, hshort, decodeResponse, hc]

end basic

/-! ### The merged query -/

section query

variable {Any : Type}

theorem bytesLE_total : ∀ a b : List Char, bytesLE a b = true ∨ bytesLE b a = true
  | [], _ => Or.inl (by simp [bytesLE])
  | _ :: _, [] => Or.inr (by simp [bytesLE])
  | a :: as, b :: bs => by
    rcases Nat.lt_trichotomy a.toNat b.toNat with h | h | h
    · left; simp [bytesLE, h]
    · rcases bytesLE_total as bs with h2 | h2
      · left; simp [bytesLE, h, h2]
      · right; simp [bytesLE, h, h2]
    · right; simp [bytesLE, h]

theorem bytesLE_trans : ∀ a b c : List Char,
    bytesLE a b = true → bytesLE b c = true → bytesLE a c = true
  | [], _, _ => fun _ _ => by simp [bytesLE]
  | _ :: _, [], _ => fun h _ => by simp [bytesLE] at h
  | _ :: _, _ :: _, [] => fun _ h => by simp [bytesLE] at h
  | a :: as, b :: bs, c :: cs => fun h1 h2 => by
    simp only [bytesLE, Bool.or_eq_true, decide_eq_true_eq, Bool.and_eq_true] at h1 h2 ⊢
    rcases h1 with h1 | ⟨h1, h1t⟩
    · rcases h2 with h2 | ⟨h2, _⟩
      · left; omega
      · left; omega
    · rcases h2 with h2 | ⟨h2, h2t⟩
      · left; omega
      · right; exact ⟨by omega, bytesLE_trans as bs cs h1t h2t⟩

theorem bytesLE_antisymm : ∀ a b : List Char,
    bytesLE a b = true → bytesLE b a = true → a = b
  | [], [] => fun _ _ => rfl
  | [], _ :: _ => fun _ h => by simp [bytesLE] at h
  | _ :: _, [] => fun h _ => by simp [bytesLE] at h
  | a :: as, b :: bs => fun h1 h2 => by
    simp only [bytesLE, Bool.or_eq_true, decide_eq_true_eq, Bool.and_eq_true] at h1 h2
    have hab : a.toNat = b.toNat := by
      rcases h1 with h1 | ⟨h1, _⟩
      · rcases h2 with h2 | ⟨h2, _⟩ <;> omega
      · exact h1
    have h1t : bytesLE as bs = true := by
      rcases h1 with h1 | ⟨_, h1⟩
      · omega
      · exact h1
    have h2t : bytesLE bs as = true := by
      rcases h2 with h2 | ⟨_, h2⟩
      · omega
      · exact h2
    have hc : a = b := by
      have := congrArg Char.ofNat hab
      simpa using this
    rw [hc, bytesLE_antisymm as bs h1t h2t]

instance strLE.isTotal : IsTotal String strLE := ⟨fun a b => bytesLE_total a.data b.data⟩

instance strLE.isTrans : IsTrans String strLE :=
  ⟨fun a b c => bytesLE_trans a.data b.data c.data⟩

instance strLE.isAntisymm : IsAntisymm String strLE :=
  ⟨fun a b h1 h2 => String.ext (bytesLE_antisymm a.data b.data h1 h2)⟩


theorem url.Values.index_of_not_mem (v : url.Values) (key : String)
    (h : key ∉ GoMap.keys v) : url.Values.index v key = [] := by
  simp [url.Values.index, GoMap.find_eq_none v key h]

theorem url.Values.index_Add (v : url.Values) (key value k : String) :
    url.Values.index (url.Values.Add v key value) k
      = if k = key then url.Values.index v key ++ [value] else url.Values.index v k := by
  by_cases hk : k = key
  · subst hk
    simp [url.Values.index, url.Values.Add, GoMap.find_assign_self]
  · simp [url.Values.index, url.Values.Add, hk,
      GoMap.find_assign_other v key k _ (fun h => hk h.symm)]

theorem url.Values.index_foldl_Add (vs : List String) (uv : url.Values) (key k : String) :
    url.Values.index (vs.foldl (fun uv value => url.Values.Add uv key value) uv) k
      = if k = key then url.Values.index uv k ++ vs else url.Values.index uv k := by
  induction vs generalizing uv with
  | nil => simp
  | cons x rest ih =>
    simp only [List.foldl_cons]
    rw [ih, url.Values.index_Add]
    by_cases hk : k = key
    · subst hk
      simp
    · simp [hk]

theorem url.Values.index_foldl_keys (qv : url.Values) (ks : List String) (hnd : ks.Nodup)
    (uv : url.Values) (k : String) :
    url.Values.index
        (ks.foldl
          (fun uv key =>
            (url.Values.index qv key).foldl (fun uv value => url.Values.Add uv key value) uv)
          uv) k
      = url.Values.index uv k ++ (if k ∈ ks then url.Values.index qv k else []) := by
  induction ks generalizing uv with
  | nil => simp
  | cons key rest ih =>
    rw [List.nodup_cons] at hnd
    simp only [List.foldl_cons]
    rw [ih hnd.2, url.Values.index_foldl_Add]
    by_cases hk : k = key
    · subst hk
      simp [hnd.1]
    · simp [hk]

theorem addQueryValues_index (L : Lib Any) (hrange : ∀ v, (L.rangeValues v).Perm (GoMap.keys v))
    (uv qv : url.Values) (k : String) :
    url.Values.index (addQueryValues L uv qv) k
      = url.Values.index uv k ++ url.Values.index qv k := by
  have hnd : (L.rangeValues qv).Nodup :=
    (hrange qv).nodup_iff.mpr (List.nodup_dedup _)
  unfold addQueryValues
  rw [url.Values.index_foldl_keys qv _ hnd]
  by_cases hk : k ∈ L.rangeValues qv
  · simp [hk]
  · have : k ∉ GoMap.keys qv := fun h => hk ((hrange qv).mem_iff.mpr h)
    simp [hk, url.Values.index_of_not_mem qv k this]

theorem addQueryLoop_index (L : Lib Any) (hrange : ∀ v, (L.rangeValues v).Perm (GoMap.keys v))
    (queryStructs : List Any) (sources : List url.Values)
    (hsources : queryStructs.map L.goqueryValues = sources.map Except.ok) (uv : url.Values) :
    ∃ r, addQueryLoop L uv queryStructs = .ok r
      ∧ ∀ k, url.Values.index r k
          = url.Values.index uv k ++ (sources.map (fun src => url.Values.index src k)).flatten := by
  induction queryStructs generalizing uv sources with
  | nil =>
    cases sources with
    | nil => exact ⟨uv, rfl, by simp⟩
    | cons a b => simp at hsources
  | cons q rest ih =>
    cases sources with
    | nil => simp at hsources
    | cons src srcs =>
      simp only [List.map_cons, List.cons.injEq] at hsources
      obtain ⟨r, hr, hidx⟩ := ih srcs hsources.2 (addQueryValues L uv src)
      refine ⟨r, ?_, ?_⟩
      · simp only [addQueryLoop, hsources.1]
        exact hr
      · intro k
        rw [hidx k, addQueryValues_index L hrange]
        simp [List.append_assoc]


theorem url.Values.Encode_eq_foldl (L : Lib Any) (v : url.Values) :
    url.Values.Encode L v
      = (List.insertionSort strLE (GoMap.keys v)).foldl (encodeKey L v) "" := by
  unfold url.Values.Encode
  split
  · next h =>
    rw [List.length_eq_zero] at h
    simp [h]
  · rfl

theorem encodeKey_foldl_filter (L : Lib Any) (v : url.Values) (ks : List String) (buf : String) :
    ks.foldl (encodeKey L v) buf
      = (ks.filter (fun k => decide (url.Values.index v k ≠ []))).foldl (encodeKey L v) buf := by
  induction ks generalizing buf with
  | nil => rfl
  | cons k rest ih =>
    by_cases hk : url.Values.index v k = []
    · have hstep : encodeKey L v buf k = buf := by simp [encodeKey, hk]
      simp [List.filter_cons, hk, hstep, ih]
    · simp [List.filter_cons, hk, ih]

theorem sorted_keys_filter_eq (a b : url.Values)
    (h : ∀ k, url.Values.index a k = url.Values.index b k) :
    (List.insertionSort strLE (GoMap.keys a)).filter (fun k => decide (url.Values.index a k ≠ []))
      = (List.insertionSort strLE (GoMap.keys b)).filter
          (fun k => decide (url.Values.index b k ≠ [])) := by
  have hfun : (fun k => decide (url.Values.index a k ≠ []))
      = (fun k => decide (url.Values.index b k ≠ [])) := by
    funext k
    rw [h k]
  rw [hfun]
  apply List.eq_of_perm_of_sorted (r := strLE)
  · have hpa := (List.perm_insertionSort strLE (GoMap.keys a)).filter
      (fun k => decide (url.Values.index b k ≠ []))
    have hpb := (List.perm_insertionSort strLE (GoMap.keys b)).filter
      (fun k => decide (url.Values.index b k ≠ []))
    refine hpa.trans (List.Perm.trans ?_ hpb.symm)
    have hna : (GoMap.keys a).Nodup := List.nodup_dedup _
    have hnb : (GoMap.keys b).Nodup := List.nodup_dedup _
    rw [List.perm_ext_iff_of_nodup (hna.filter _) (hnb.filter _)]
    intro k
    simp only [List.mem_filter, decide_eq_true_eq]
    constructor
    · rintro ⟨_, hne⟩
      refine ⟨?_, hne⟩
      by_contra hmem
      exact hne (url.Values.index_of_not_mem b k hmem)
    · rintro ⟨_, hne⟩
      refine ⟨?_, hne⟩
      by_contra hmem
      exact hne ((h k).symm.trans (url.Values.index_of_not_mem a k hmem))
  · exact (List.sorted_insertionSort strLE _).filter _
  · exact (List.sorted_insertionSort strLE _).filter _

theorem url.Values.Encode_congr (L : Lib Any) (a b : url.Values)
    (h : ∀ k, url.Values.index a k = url.Values.index b k) :
    url.Values.Encode L a = url.Values.Encode L b := by
  have hstep : encodeKey L a = encodeKey L b := by
    funext buf k
    simp [encodeKey, h k]
  rw [url.Values.Encode_eq_foldl, url.Values.Encode_eq_foldl, encodeKey_foldl_filter L a,
    encodeKey_foldl_filter L b, sorted_keys_filter_eq a b h, hstep]

theorem specMergedValues_find (f : String → List String) (ks : List String) (k : String) :
    GoMap.find (ks.map (fun key => (key, f key))) k = if k ∈ ks then some (f k) else none := by
  induction ks with
  | nil => rfl
  | cons key rest ih =>
    by_cases hk : key = k
    · subst hk
      simp [GoMap.find]
    · have hk2 : ¬ k = key := fun h => hk h.symm
      simp [GoMap.find, hk, hk2, ih]

theorem specMergedValues_index (existing : url.Values) (sources : List url.Values) (k : String) :
    url.Values.index (specMergedValues existing sources) k
      = specMergedIndex existing sources k := by
  unfold specMergedValues url.Values.index
  rw [specMergedValues_find]
  split
  · rfl
  · next hk =>
    simp only [List.mem_dedup, List.mem_append, List.mem_flatten, List.mem_map, not_or,
      not_exists, not_and] at hk
    have h1 : url.Values.index existing k = [] := url.Values.index_of_not_mem _ _ hk.1
    have h2 : ∀ src ∈ sources, url.Values.index src k = [] := by
      intro src hsrc
      apply url.Values.index_of_not_mem
      intro hmem
      exact hk.2 (GoMap.keys src) ⟨src, hsrc, rfl⟩ hmem
    have h3 : (sources.map (fun src => url.Values.index src k)).flatten = [] := by
      rw [List.flatten_eq_nil_iff]
      intro l hl
      rw [List.mem_map] at hl
      obtain ⟨src, hsrc, rfl⟩ := hl
      exact h2 src hsrc
    rw [specMergedIndex, h1, h3]
    rfl

theorem addQueryStructs_merged (L : Lib Any)
    (hrange : ∀ v, (L.rangeValues v).Perm (GoMap.keys v))
    (u : url.URL) (queryStructs : List Any) (existing : url.Values) (sources : List url.Values)
    (hquery : L.ParseQuery u.RawQuery = .ok existing)
    (hsources : queryStructs.map L.goqueryValues = sources.map Except.ok) :
    addQueryStructs L u queryStructs
      = .ok { u with RawQuery := url.Values.Encode L (specMergedValues existing sources) } := by
  obtain ⟨r, hr, hidx⟩ := addQueryLoop_index L hrange queryStructs sources hsources existing
  simp only [addQueryStructs, hquery, hr]
  rw [url.Values.Encode_congr L r (specMergedValues existing sources)]
  intro k
  rw [hidx k, specMergedValues_index]
  rfl


theorem http.NewRequestWithContext_URL (L : Lib Any) (ctx : Option Any) (method urlStr : String)
    (body : Option (Reader Any)) (req : http.Request Any)
    (h : http.NewRequestWithContext L ctx method urlStr body = .ok req) :
    ∃ u2, L.Parse urlStr = .ok u2 ∧ req.URL.RawQuery = u2.RawQuery := by
  unfold http.NewRequestWithContext at h
  simp only at h
  generalize (if method = "" then "GET" else method) = mth at h
  cases hv : L.validMethod mth with
  | false => simp [hv] at h
  | true =>
    cases ctx with
    | none => simp [hv] at h
    | some c =>
      cases hp : L.Parse urlStr with
      | error e => simp [hv, hp] at h
      | ok u2 =>
        simp only [hv, hp, Bool.not_true, Bool.false_eq_true, if_false, Except.ok.injEq] at h
        exact ⟨u2, rfl, by rw [← h]⟩

theorem addHeaders_URL (L : Lib Any) (m : Arrays) (req : http.Request Any) (header : http.Header) :
    (addHeaders L m req header).URL = req.URL := by
  unfold addHeaders
  generalize L.rangeHeader header = ks
  induction ks generalizing req with
  | nil => rfl
  | cons key rest ih =>
    simp only [List.foldl_cons]
    rw [ih]
    generalize (http.Header.index header key).read m = vs
    induction vs generalizing req with
    | nil => rfl
    | cons v vs ihv =>
      simp only [List.foldl_cons]
      rw [ihv]

theorem Client.Request_URL (L : Lib Any) (m : Arrays) (s : Client Any) (ctx : Option Any)
    (u u1 : url.URL) (hparse : L.Parse s.rawURL = .ok u)
    (hadd : addQueryStructs L u s.queryStructs = .ok u1) (req : http.Request Any)
    (h : Client.Request L m s ctx = .ok req) :
    ∃ u2, L.Parse (L.URLString u1) = .ok u2 ∧ req.URL.RawQuery = u2.RawQuery := by
  unfold Client.Request at h
  simp only [hparse, hadd] at h
  split at h
  · cases h
  · next body _ =>
    cases hn : http.NewRequestWithContext L ctx s.method (L.URLString u1) body with
    | error e => simp [hn] at h
    | ok req0 =>
      obtain ⟨u2, hu2, hq⟩ := http.NewRequestWithContext_URL L ctx _ _ _ _ hn
      refine ⟨u2, hu2, ?_⟩
      simp only [hn] at h
      cases hs : s.signer with
      | none =>
        simp only [hs, Except.ok.injEq] at h
        rw [← h, addHeaders_URL, hq]
      | some signer =>
        simp only [hs] at h
        split at h
        · cases h
        · simp only [Except.ok.injEq] at h
          rw [← h]
          simp only
          rw [addHeaders_URL, hq]

/-- C5: when the URL string of the builder parses, its query parses, and every
query source encodes, the URL finalization of `Request` succeeds and the query
string it sets is the key-sorted encoding of the merged multimap, in which the
value list of each key is the values the URL had for it followed by the values
of each source in insertion order (none overwritten or dropped); that is the
query string of every request `Request` returns, provided the URL string
parses back (in `http.NewRequestWithContext`) to the same query; and the
request is the same in whatever order the keys of the encoded sources are
iterated. -/
theorem Request_query_is_merged (L : Lib Any) (m : Arrays) (s : Client Any) (ctx : Option Any)
    (u : url.URL) (existing : url.Values) (sources : List url.Values)
    (hparse : L.Parse s.rawURL = .ok u)
    (hquery : L.ParseQuery u.RawQuery = .ok existing)
    (hsources : s.queryStructs.map L.goqueryValues = sources.map Except.ok)
    (hrange : ∀ v, (L.rangeValues v).Perm (GoMap.keys v))
    (hround : ∀ u2,
      L.Parse (L.URLString
          { u with RawQuery := url.Values.Encode L (specMergedValues existing sources) })
        = .ok u2 →
      u2.RawQuery = url.Values.Encode L (specMergedValues existing sources)) :
    addQueryStructs L u s.queryStructs
      = .ok { u with RawQuery := url.Values.Encode L (specMergedValues existing sources) }
    ∧ (∀ k, url.Values.index (specMergedValues existing sources) k
        = url.Values.index existing k
          ++ (sources.map (fun src => url.Values.index src k)).flatten)
    ∧ (∀ req, Client.Request L m s ctx = .ok req →
        req.URL.RawQuery = url.Values.Encode L (specMergedValues existing sources))
    ∧ (∀ order : url.Values → List String, (∀ v, (order v).Perm (GoMap.keys v)) →
        Client.Request { L with rangeValues := order } m s ctx = Client.Request L m s ctx) := by
  have hadd := addQueryStructs_merged L hrange u s.queryStructs existing sources hquery hsources
  refine ⟨hadd, fun k => specMergedValues_index existing sources k, ?_, ?_⟩
  · intro req hreq
    obtain ⟨u2, hu2, hq⟩ := Client.Request_URL L m s ctx u _ hparse hadd req hreq
    rw [hq]
    exact hround u2 hu2
  · intro order horder
    have hadd2 := addQueryStructs_merged { L with rangeValues := order } horder u s.queryStructs
      existing sources hquery hsources
    have hbody : ∀ bp : BodyProvider Any,
        BodyProvider.Body { L with rangeValues := order } bp = BodyProvider.Body L bp := by
      intro bp
      cases bp <;> rfl
    unfold Client.Request
    simp only [hparse, hadd, hadd2, hbody]
    rfl

end query

/-! ### Reference resolution: Go `ResolveReference` and RFC 3986, 5.2 -/

section resolution

open gostd

/-- The empty path has no dot segment. -/
theorem rfc3986.loop_empty : rfc3986.removeDotSegments [] = [] := rfl

end resolution

/-! ### Runs on concrete builders -/

/-- The scenario of C1: the executor answers 404; with a failure target the
decoder is called on it and its error returned, without one there is no
decoder call and no error. -/
theorem Do_decodes_by_status_witness :
    Client.Do (clientAnswering (some (responseWith 404 12)) none) exampleRequest
        none (some (plainValue "failure"))
      = (.returned (some (responseWith 404 12)) (some "decode: unexpected body"),
          [.decode (responseWith 404 12) (plainValue "failure"),
            .drain (responseWith 404 12), .close (responseWith 404 12)])
    ∧ Client.Do (clientAnswering (some (responseWith 404 12)) none) exampleRequest
        (some (plainValue "success")) none
      = (.returned (some (responseWith 404 12)) none,
          [.drain (responseWith 404 12), .close (responseWith 404 12)]) :=
  ⟨((Do_decodes_by_status (clientAnswering (some (responseWith 404 12)) none) exampleRequest
      (responseWith 404 12) none (some (plainValue "failure")) rfl (by decide) (by decide)).2.2
      (by decide)).1 _ rfl,
   ((Do_decodes_by_status (clientAnswering (some (responseWith 404 12)) none) exampleRequest
      (responseWith 404 12) (some (plainValue "success")) none rfl (by decide) (by decide)).2.2
      (by decide)).2 rfl⟩

/-- Two runs for C2: status 204, and content length 0 with status 200, both
targets supplied. -/
theorem Do_skips_decoding_without_content_witness :
    (Client.Do (clientAnswering (some (responseWith 204 12)) none) exampleRequest
        (some (plainValue "success")) (some (plainValue "failure"))).1
      = .returned (some (responseWith 204 12)) none
    ∧ (Client.Do (clientAnswering (some (responseWith 200 0)) none) exampleRequest
        (some (plainValue "success")) (some (plainValue "failure"))).2
      = [.drain (responseWith 200 0), .close (responseWith 200 0)] :=
  ⟨(Do_skips_decoding_without_content (clientAnswering (some (responseWith 204 12)) none)
      exampleRequest (responseWith 204 12) _ _ rfl (Or.inl rfl)).1,
   (Do_skips_decoding_without_content (clientAnswering (some (responseWith 200 0)) none)
      exampleRequest (responseWith 200 0) _ _ rfl (Or.inr rfl)).2.1⟩

/-- Two runs for C8: an executor error with a nil response, and one with a
response. -/
theorem Do_returns_executor_error_witness :
    (Client.Do (clientAnswering none (some "dial tcp: connection refused")) exampleRequest
        (some (plainValue "success")) (some (plainValue "failure"))).1
      = .returned none (some "dial tcp: connection refused")
    ∧ (Client.Do (clientAnswering (some (responseWith 502 7)) (some "unexpected EOF"))
        exampleRequest (some (plainValue "success")) (some (plainValue "failure")))
      = (.returned (some (responseWith 502 7)) (some "unexpected EOF"), []) :=
  ⟨(Do_returns_executor_error (clientAnswering none (some "dial tcp: connection refused"))
      exampleRequest none _ _ _ rfl).1,
   Prod.ext
     (Do_returns_executor_error (clientAnswering (some (responseWith 502 7)) (some "unexpected EOF"))
        exampleRequest (some (responseWith 502 7)) _ _ _ rfl).1
     (Do_returns_executor_error (clientAnswering (some (responseWith 502 7)) (some "unexpected EOF"))
        exampleRequest (some (responseWith 502 7)) _ _ _ rfl).2.1⟩

/-- Two runs for C4: a path that does not parse, and a base that does not. -/
theorem Path_noop_on_parse_failure_witness :
    errNil (golib.Parse ":bad") = false
    ∧ (Client.Path golib (Client.Base (New golib) "http://zeisss.com/") ":bad").rawURL
        = "http://zeisss.com/"
    ∧ (Client.Path golib (Client.Base (New golib) "%zz") "/123").rawURL = "%zz" :=
  ⟨by decide,
   (Path_noop_on_parse_failure golib (Client.Base (New golib) "http://zeisss.com/") ":bad"
      (Or.inr (by decide))).2,
   (Path_noop_on_parse_failure golib (Client.Base (New golib) "%zz") "/123"
      (Or.inl (by decide))).2⟩

/-- The definitions of this file for RFC 3986 give the targets of its worked
examples (sections 5.4.1 and 5.4.2), and so does `Path`. -/
theorem rfc3986.resolve_examples :
    ∀ e ∈ rfc3986.examples,
      rfc3986.resolveString "http://a/b/c/d;p?q" e.1 = some e.2
      ∧ pathString "http://a/b/c/d;p?q" e.1 = e.2 := by
  decide!

/-- C6 (the run on which it fails): the parent is
`New().Add("A","1").Add("A","2").Add("A","3")` and the child `c := p.New()`.
After `c.Add("A","x")` the child reads `A` as `1, 2, 3, x` and the parent as
`1, 2, 3`; after the parent's own `p.Add("A","y")` the child reads
`1, 2, 3, y`: the call on the parent overwrote the child's value, as both
value lists lie in one backing array. -/
theorem New_child_shares_header_values :
    http.Header.Values golib childRun.1 childRun.2.header "A" = ["1", "2", "3", "x"]
    ∧ http.Header.Values golib childRun.1 parentRun.2.header "A" = ["1", "2", "3"]
    ∧ http.Header.Values golib parentAfterChild.1 parentAfterChild.2.header "A"
        = ["1", "2", "3", "y"]
    ∧ http.Header.Values golib parentAfterChild.1 childRun.2.header "A"
        = ["1", "2", "3", "y"] := by
  decide

/-- The scenario of C5: base `http://example.com/api`, path `items?x=1`, one
query source encoding to `x=["2"]`; the materialized query is `x=1&x=2`. -/
theorem Request_query_is_merged_witness :
    scenarioClient.rawURL = "http://example.com/items?x=1"
    ∧ addQueryStructs golib scenarioURL scenarioClient.queryStructs
        = .ok { scenarioURL with RawQuery := "x=1&x=2" }
    ∧ (Client.Request golib [] scenarioClient (some (plainValue "ctx"))).toOption.map
        (fun req => (req.Method, golib.URLString req.URL, req.URL.RawQuery))
      = some ("GET", "http://example.com/items?x=1&x=2", "x=1&x=2") :=
  ⟨by decide,
   (Request_query_is_merged golib [] scenarioClient (some (plainValue "ctx")) scenarioURL
      [("x", ["1"])] [[("x", ["2"])]] (by decide) (by decide) (by decide)
      (fun _ => List.Perm.refl _)
      (fun u2 h => by
        have hp : golib.Parse (golib.URLString
            { scenarioURL with
              RawQuery := url.Values.Encode golib
                (specMergedValues [("x", ["1"])] [[("x", ["2"])]]) })
            = .ok { scenarioURL with RawQuery := "x=1&x=2" } := by decide
        rw [hp] at h
        cases h
        decide)).1.trans (by decide!),
   by decide!⟩

end carry
